import Mathlib

/-!
# Microchip 3D (MGC313x / MGC3140) I2C gesture driver

A shallow embedding of `drivers/input/touchscreen/mchp_3d_i2c.c` and theorems
about its ring buffer, frame decoder, gesture dispatch, receive pass and
firmware handshake.

Conventions of the embedding.

* The driver is built for the AT91 (ARM) family, where plain `char` is
  unsigned; the driver's own comparisons of `char` values with `0x83`, `0xAA`
  and `0xFF` rely on it.  A byte is therefore a value in `0..255`.
* A `char *` is modelled by the memory it points at: a function from the
  index used in `p[i]` to the byte stored there.
* `unsigned int` arithmetic is arithmetic on `Nat` reduced modulo `2 ^ 32`
  where the source expression can exceed the range; `int` values are `Int`.
* Calls into the kernel (input core, I2C core, `printk`) are recorded in the
  order in which they are issued.
-/

set_option linter.unusedVariables false

namespace Mchp3d

/-! ## Data model -/

/-- The constant `BUFFER_SIZE` (line 75). -/
abbrev BUFFER_SIZE : Nat := 2000

/-- Number of values of an `unsigned int`. -/
abbrev UINT_RANGE : Nat := 4294967296

/-- One `unsigned char`. -/
abbrev Byte := Fin 256

/-- The bytes reachable through a `char *`, by index. -/
abbrev Mem := Nat → Byte

/-- The record `struct Buffer` (lines 80-84). -/
structure Buffer where
  data : Mem
  newestIndex : Nat
  oldestIndex : Nat

/-- The record `struct mchp_3d_i2c_priv` (lines 86-105), without the kernel handles
`client`, `input` and `work`. -/
structure mchp_3d_i2c_priv where
  touch_enable : Int
  i2c_read_buffer_size : Int
  air_swipe_left : Int
  air_swipe_right : Int
  air_swipe_up : Int
  air_swipe_down : Int
  air_hover_hold : Int
  air_circle_clock : Int
  air_circle_counterclock : Int
  rx_buf : Mem
  rx_len : Int
  isReadingStreamBuffer : Int
  stream_buffer_size : Int
  target_device : Int
  circularBuffer : Buffer

/-- The type `enum BufferStatus` (line 107). -/
inductive BufferStatus where
  | BUFFER_OK
  | BUFFER_EMPTY
  | BUFFER_FULL
  deriving DecidableEq, Repr

open BufferStatus

/-! ## Ring buffer (lines 109-131) -/

/-- Function `bufferRead` (lines 109-118).  The third component is the value of `*byte`
after the call; `byte` is its value before the call. -/
def bufferRead (priv : mchp_3d_i2c_priv) (byte : Byte) :
    BufferStatus × mchp_3d_i2c_priv × Byte :=
  if priv.circularBuffer.newestIndex = priv.circularBuffer.oldestIndex then
    (BUFFER_EMPTY, priv, byte)
  else
    (BUFFER_OK,
     { priv with
       circularBuffer :=
         { priv.circularBuffer with
           oldestIndex :=
             ((priv.circularBuffer.oldestIndex + 1) % UINT_RANGE) % BUFFER_SIZE } },
     priv.circularBuffer.data priv.circularBuffer.oldestIndex)

/-- Function `bufferWrite` (lines 120-131). -/
def bufferWrite (priv : mchp_3d_i2c_priv) (byte : Byte) :
    BufferStatus × mchp_3d_i2c_priv :=
  let next_index := ((priv.circularBuffer.newestIndex + 1) % UINT_RANGE) % BUFFER_SIZE
  if next_index = priv.circularBuffer.oldestIndex then
    (BUFFER_FULL, priv)
  else
    (BUFFER_OK,
     { priv with
       circularBuffer :=
         { priv.circularBuffer with
           data := fun i =>
             if i = priv.circularBuffer.newestIndex then byte
             else priv.circularBuffer.data i
           newestIndex := next_index } })

/-- One call made by a user of the ring buffer. -/
inductive RingOp where
  | write (b : Byte)
  | read

/-- What a sequence of ring-buffer calls produced: the state it ends in, the
bytes handed out by the reads that returned `BUFFER_OK` and the bytes taken by
the writes that returned `BUFFER_OK`, both in call order. -/
structure RingRun where
  final : mchp_3d_i2c_priv
  delivered : List Byte
  accepted : List Byte

/-- Apply a sequence of `bufferWrite` / `bufferRead` calls, first call first. -/
def runOps : List RingOp → mchp_3d_i2c_priv → RingRun
  | [], priv => { final := priv, delivered := [], accepted := [] }
  | RingOp.write b :: ops, priv =>
      match bufferWrite priv b with
      | (BUFFER_OK, priv1) =>
          let r := runOps ops priv1
          { r with accepted := b :: r.accepted }
      | (_, priv1) => runOps ops priv1
  | RingOp.read :: ops, priv =>
      match bufferRead priv 0 with
      | (BUFFER_OK, priv1, byte) =>
          let r := runOps ops priv1
          { r with delivered := byte :: r.delivered }
      | (_, priv1, _) => runOps ops priv1

/-- Both indices address a slot of `data`. -/
abbrev IndicesInRange (priv : mchp_3d_i2c_priv) : Prop :=
  priv.circularBuffer.newestIndex < BUFFER_SIZE ∧
    priv.circularBuffer.oldestIndex < BUFFER_SIZE

/-- Number of slots from `oldestIndex` up to `newestIndex`, going round. -/
def resident (priv : mchp_3d_i2c_priv) : Nat :=
  (priv.circularBuffer.newestIndex + BUFFER_SIZE - priv.circularBuffer.oldestIndex)
    % BUFFER_SIZE

/-- The stored bytes from `oldestIndex` up to `newestIndex`, oldest first. -/
def pending (priv : mchp_3d_i2c_priv) : List Byte :=
  (List.range (resident priv)).map fun i =>
    priv.circularBuffer.data ((priv.circularBuffer.oldestIndex + i) % BUFFER_SIZE)

/-- A sample device record whose ring buffer is empty with both indices `0`. -/
def emptyPriv : mchp_3d_i2c_priv :=
  { touch_enable := 1, i2c_read_buffer_size := 0x30,
    air_swipe_left := 105, air_swipe_right := 106, air_swipe_up := 103,
    air_swipe_down := 108, air_hover_hold := 28, air_circle_clock := 11,
    air_circle_counterclock := 2,
    rx_buf := fun _ => 0, rx_len := 1, isReadingStreamBuffer := 0,
    stream_buffer_size := 0, target_device := 0,
    circularBuffer := { data := fun _ => 0, newestIndex := 0, oldestIndex := 0 } }

/-! ## Input events (lines 523-559) -/

/-- The `code` argument of `input_report_key`, an `unsigned int`.  The button
macros `BTN_LEFT`, `BTN_MIDDLE` and `BTN_RIGHT` of `<linux/input.h>` are kept
symbolic; `id` is a code given as a number. -/
inductive KeyCode where
  | id (code : Nat)
  | BTN_LEFT
  | BTN_MIDDLE
  | BTN_RIGHT
  deriving DecidableEq, Repr

/-- The axis macros `ABS_X`, `ABS_Y`, `ABS_Z` of `<linux/input.h>`. -/
inductive AbsAxis where
  | ABS_X
  | ABS_Y
  | ABS_Z
  deriving DecidableEq, Repr

/-- One call into the input core. -/
inductive InputCall where
  | input_report_key (code : KeyCode) (value : Int)
  | input_report_abs (axis : AbsAxis) (value : Int)
  | input_sync
  deriving DecidableEq, Repr

open InputCall

/-- Function `send_input` (lines 523-559): the calls into the input core it makes for
`id`, in order.  Of `priv` only the handle `priv->input` is used.  The `int id`
is converted to the `unsigned int code` parameter of `input_report_key`, that
is, taken modulo `2 ^ 32`. -/
def send_input (id : Int) : List InputCall :=
  (if id < 255 then
    [input_report_key (KeyCode.id (id % (UINT_RANGE : Int)).toNat) 1, input_sync,
     input_report_key (KeyCode.id (id % (UINT_RANGE : Int)).toNat) 0, input_sync]
   else []) ++
  (if id = 2000 then
    [input_report_key KeyCode.BTN_LEFT 1, input_sync,
     input_report_key KeyCode.BTN_LEFT 0, input_sync]
   else if id = 2001 then
    [input_report_key KeyCode.BTN_MIDDLE 1, input_sync,
     input_report_key KeyCode.BTN_MIDDLE 0, input_sync]
   else if id = 2002 then
    [input_report_key KeyCode.BTN_RIGHT 1, input_sync,
     input_report_key KeyCode.BTN_RIGHT 0, input_sync]
   else [])

/-! ## Frame decoder (lines 561-658) -/

/-- The four locals computed from the gesture word (lines 578-581). -/
structure GestureInfo where
  gestureType : Nat
  gestureClass : Nat
  edgeFlick : Nat
  gestureInProgress : Nat
  deriving DecidableEq, Repr

/-- What one run of the decoder did: the value of `element` reached, the
gesture locals (when the gesture block was entered), the air-wheel value (when
it was computed), the arguments of the `send_input` calls, the calls into the
input core and the indices `i` of the accesses `data[i]`, each in source
order. -/
structure DecodeTrace where
  element : Nat
  gesture : Option GestureInfo
  airWheel : Option Nat
  dispatched : List Int
  input : List InputCall
  reads : List Nat
  deriving DecidableEq, Repr

/-- The `switch (gestureType)` of lines 590-622: the arguments of the
`send_input` calls it makes. -/
def gestureSwitch (priv : mchp_3d_i2c_priv) (gestureType : Nat) : List Int :=
  match gestureType with
  | 0 => [priv.air_hover_hold]
  | 2 => [priv.air_swipe_right]
  | 3 => [priv.air_swipe_left]
  | 4 => [priv.air_swipe_up]
  | 5 => [priv.air_swipe_down]
  | 6 => [priv.air_circle_clock]
  | 7 => [priv.air_circle_counterclock]
  | _ => []

/-- Body of the gesture block (lines 577-623). -/
def gestureBlock (priv : mchp_3d_i2c_priv) (data : Mem) (t : DecodeTrace) : DecodeTrace :=
  let element := t.element
  let gesture :=
    (((data element).val &&& 0xFF) + (((data (element + 1)).val &&& 0xFF) <<< 8)
      + (((data (element + 2)).val &&& 0xFF) <<< 16)
      + (((data (element + 3)).val &&& 0xFF) <<< 24)) % UINT_RANGE
  let gestureType := gesture &&& 0x0000000F
  let gestureClass := (gesture &&& 0x0000F000) >>> 12
  let edgeFlick := (gesture &&& 0x00010000) >>> 16
  let gestureInProgress := (gesture &&& 0x80000000) >>> 31
  let ids := if gestureClass = 1 then gestureSwitch priv gestureType else []
  { t with
    element := element + 4
    gesture := some
      { gestureType := gestureType, gestureClass := gestureClass,
        edgeFlick := edgeFlick, gestureInProgress := gestureInProgress }
    dispatched := t.dispatched ++ ids
    input := t.input ++ (ids.map send_input).flatten
    reads := t.reads ++ [element, element + 1, element + 2, element + 3] }

/-- Body of the air-wheel block (lines 633-639). -/
def airWheelBlock (data : Mem) (systemInformation : Nat) (t : DecodeTrace) : DecodeTrace :=
  let element := t.element
  if systemInformation &&& 0x02 = 2 then
    let airWheel :=
      (((data element).val &&& 0xFF) + (((data (element + 1)).val &&& 0xFF) <<< 8))
        % UINT_RANGE
    { t with
      element := element + 2
      airWheel := some airWheel
      reads := t.reads ++ [element, element + 1] }
  else
    { t with element := element + 2 }

/-- Body of the 3D-position block (lines 646-653). -/
def positionBlock (data : Mem) (t : DecodeTrace) : DecodeTrace :=
  let element := t.element
  let x : Nat := (((data (element + 1)).val <<< 8) &&& 0xff00) ||| ((data element).val &&& 0xff)
  let y : Nat :=
    (((data (element + 3)).val <<< 8) &&& 0xff00) ||| ((data (element + 2)).val &&& 0xff)
  let z : Nat :=
    (((data (element + 5)).val <<< 8) &&& 0xff00) ||| ((data (element + 4)).val &&& 0xff)
  { t with
    input := t.input ++
      [input_report_abs AbsAxis.ABS_X x, input_report_abs AbsAxis.ABS_Y y,
       input_report_abs AbsAxis.ABS_Z z, input_sync]
    reads := t.reads ++
      [element + 1, element, element + 3, element + 2, element + 5, element + 4] }

/-- Function `decode_mgc313X_data` (lines 561-658).  The parameter `size` is not used
by the function body. -/
def decode_mgc313X_data (priv : mchp_3d_i2c_priv) (data : Mem) (size : Int) : DecodeTrace :=
  let dataOutputConfigMask :=
    (((data 3).val &&& 0xFF) + (((data 4).val &&& 0xFF) <<< 8)) % UINT_RANGE
  let systemInformation := (data 6).val
  let t0 : DecodeTrace :=
    { element := 7, gesture := none, airWheel := none, dispatched := [], input := [],
      reads := [3, 4, 6] }
  let t1 := if dataOutputConfigMask &&& 0x0001 = 1 then { t0 with element := t0.element + 2 }
    else t0
  let t2 := if dataOutputConfigMask &&& 0x0002 = 2 then gestureBlock priv data t1 else t1
  let t3 := if dataOutputConfigMask &&& 0x0004 = 4 then { t2 with element := t2.element + 4 }
    else t2
  let t4 := if dataOutputConfigMask &&& 0x0008 = 8 then airWheelBlock data systemInformation t3
    else t3
  if dataOutputConfigMask &&& 16 = 16 then positionBlock data t4 else t4

/-! ## Receive pass (lines 660-726) -/

/-- What one run of `mgc313x_i2c_readdata` did: the `count` arguments of its
`i2c_master_recv` calls, the arguments `(data, size)` of its decoder calls and
the calls into the input core, each in order. -/
structure ReadPass where
  recv : List Int
  decoded : List (Mem × Int)
  input : List InputCall

/-- Function `mgc313x_i2c_readdata` (lines 660-726).  `alloc_ok` says whether `kmalloc`
returned a buffer; `payload_buf` is the content of that buffer after the first
`i2c_master_recv`, whose result the function does not inspect.  `kmalloc`
returns a buffer only for a non-negative `i2c_read_buffer_size`, and
`num_bytes` is a byte, so the subtractions stay within `int`. -/
def mgc313x_i2c_readdata (priv : mchp_3d_i2c_priv) (alloc_ok : Bool) (payload_buf : Mem) :
    ReadPass :=
  if alloc_ok = false then
    { recv := [], decoded := [], input := [] }
  else
    let num_bytes : Int := ((payload_buf 0).val : Int)
    let bytes_to_read : Int := 0
    let bytes_to_read :=
      if num_bytes > priv.i2c_read_buffer_size then num_bytes - priv.i2c_read_buffer_size
      else bytes_to_read
    let num_bytes :=
      if num_bytes > priv.i2c_read_buffer_size then priv.i2c_read_buffer_size
      else num_bytes
    if bytes_to_read > 0 then
      { recv := [priv.i2c_read_buffer_size, bytes_to_read], decoded := [], input := [] }
    else
      let data : Mem := fun i => payload_buf (i + 1)
      { recv := [priv.i2c_read_buffer_size]
        decoded := [(data, num_bytes - 1)]
        input := (decode_mgc313X_data priv data (num_bytes - 1)).input }

/-! ## Firmware handshake (lines 905-980) -/

/-- The constant `Empty0` (line 34). -/
abbrev Empty0 : Nat := 0x00

/-- The constant `InvalidFw` (line 35). -/
abbrev InvalidFw : Nat := 0x0A

/-- The constant `ValidFw` (line 36). -/
abbrev ValidFw : Nat := 0xAA

/-- The constant `Empty1` (line 37). -/
abbrev Empty1 : Nat := 0xFF

/-- The global `buf_size` (line 78). -/
abbrev buf_size : Int := 0x30

/-- The array `setGestIDFlags_Enable` (line 819). -/
def setGestIDFlags_Enable : List Byte :=
  [0x10, 0x00, 0x00, 0xA2, 0xA0, 0x00, 0x00, 0x00, 0x0a, 0x00, 0x00, 0x00, 0xFF, 0xFF, 0xFF, 0xFF]

/-- The array `setGestIDFlags_Disable` (line 820). -/
def setGestIDFlags_Disable : List Byte :=
  [0x10, 0x00, 0x00, 0xA2, 0xA0, 0x00, 0x00, 0x00, 0x00, 0x00, 0x00, 0x00, 0xFF, 0xFF, 0xFF, 0xFF]

/-- The array `setGestIDFlags_Req_FwVersion` (line 821). -/
def setGestIDFlags_Req_FwVersion : List Byte :=
  [0x0c, 0x00, 0x00, 0x06, 0x83, 0x00, 0x00, 0x00, 0x00, 0x00, 0x00, 0x00]

/-- The `printk` lines of the handshake, one constructor per call. -/
inductive ProbeLog where
  | disableOutputs
  | requestFwVersion
  | noCompleteImage
  | reloadFirmware
  | validImage
  | msgInfo (size id : Byte)
  | bootloaderVer (major minor : Byte)
  | fwRevVersion (a b c d e : Byte)
  | enableIrq
  | enableOutputs
  deriving DecidableEq, Repr

/-- One call the handshake makes into the kernel. -/
inductive ProbeCall where
  | i2c_master_send (buf : List Byte)
  | i2c_master_recv (count : Int)
  | enable_irq
  | printk (line : ProbeLog)
  deriving DecidableEq, Repr

/-- The locals of the handshake, the number of receives issued so far, the
calls made so far and the receive numbers of the responses that went through
the classification of lines 923-947, in order. -/
structure ProbeState where
  fw_buffer : Mem
  msg_size : Int
  loopcount : Int
  received : Nat
  calls : List ProbeCall
  classified : List Nat

/-- The `printk` lines of one classification (lines 923-947). -/
def classify (fw_buffer : Mem) : List ProbeLog :=
  if (fw_buffer 3).val = 0x83 then
    if (fw_buffer 4).val = Empty0 ∨ (fw_buffer 4).val = Empty1
        ∨ (fw_buffer 4).val = InvalidFw then
      [ProbeLog.noCompleteImage, ProbeLog.reloadFirmware]
    else if (fw_buffer 4).val = ValidFw then
      [ProbeLog.validImage, ProbeLog.msgInfo (fw_buffer 0) (fw_buffer 3),
       ProbeLog.bootloaderVer (fw_buffer 11) (fw_buffer 10),
       ProbeLog.fwRevVersion (fw_buffer 42) (fw_buffer 43) (fw_buffer 44) (fw_buffer 45)
         (fw_buffer 46)]
    else []
  else
    [ProbeLog.msgInfo (fw_buffer 0) (fw_buffer 3)]

/-- One pass through the body of `while (loopcount > 0)` (lines 921-970).
`resp k` is the content of `fw_buffer` after the receive numbered `k`,
counting from `0`; on entry `fw_buffer` holds response `received - 1`. -/
def probeLoopBody (resp : Nat → Mem) (s : ProbeState) : ProbeState :=
  if s.msg_size ≠ 0x00 then
    { fw_buffer := resp s.received
      msg_size := ((resp s.received 0).val : Int)
      loopcount := s.loopcount - 1
      received := s.received + 1
      calls := s.calls ++ (classify s.fw_buffer).map ProbeCall.printk
        ++ [ProbeCall.i2c_master_recv buf_size]
      classified := s.classified ++ [s.received - 1] }
  else
    { s with loopcount := -1 }

/-- The loop `while (loopcount > 0)` (lines 919-971), run for at most `fuel`
passes; `none` when the condition still holds after them. -/
def probeLoop (resp : Nat → Mem) : Nat → ProbeState → Option ProbeState
  | 0, s => if s.loopcount > 0 then none else some s
  | fuel + 1, s =>
      if s.loopcount > 0 then probeLoop resp fuel (probeLoopBody resp s) else some s

/-- The handshake up to the loop (lines 907-915): two sends, the first
receive and `msg_size = fw_buffer[0]`, with `loopcount = 0x05`. -/
def probeStart (resp : Nat → Mem) : ProbeState :=
  { fw_buffer := resp 0
    msg_size := ((resp 0 0).val : Int)
    loopcount := 0x05
    received := 1
    calls :=
      [ProbeCall.i2c_master_send setGestIDFlags_Disable,
       ProbeCall.printk ProbeLog.disableOutputs,
       ProbeCall.i2c_master_send setGestIDFlags_Req_FwVersion,
       ProbeCall.printk ProbeLog.requestFwVersion,
       ProbeCall.i2c_master_recv buf_size]
    classified := [] }

/-- The firmware handshake of `mchp_3d_i2c_probe` (lines 905-980): the calls
it makes, in order, for the transport responses `resp`. -/
def mchp_3d_i2c_probe (resp : Nat → Mem) (fuel : Nat) : Option (List ProbeCall) :=
  match probeLoop resp fuel (probeStart resp) with
  | none => none
  | some s =>
      some (s.calls ++
        [ProbeCall.enable_irq, ProbeCall.printk ProbeLog.enableIrq,
         ProbeCall.i2c_master_send setGestIDFlags_Enable,
         ProbeCall.printk ProbeLog.enableOutputs])

/-- The buffers given to `i2c_master_send`, in call order. -/
def sentCommands (calls : List ProbeCall) : List (List Byte) :=
  calls.filterMap fun c =>
    match c with
    | ProbeCall.i2c_master_send buf => some buf
    | _ => none

/-! ## Control surface: `receive_buffer` and `send_buffer` (lines 360-498) -/

/-- One call into the I2C core made by the control surface. -/
inductive I2cCall where
  | i2c_master_send (buf : List Byte)
  | i2c_master_recv (count : Int)
  deriving DecidableEq, Repr

/-- The variables of the drain loop of `receive_buffer_show` (lines 374-384):
the device record, the counter `i`, the local `byte_from_buffer` and the
indices `i` of the stores `rx_buf[i] = ...` made so far, in order. -/
structure DrainState where
  priv : mchp_3d_i2c_priv
  i : Int
  byte_from_buffer : Byte
  written : List Int

/-- The loop `while (!(BUFFER_EMPTY == bufferRead(priv, &byte_from_buffer)))`
of lines 374-384, run for at most `fuel` evaluations of its condition; `none`
when they do not suffice. -/
def drainLoop : Nat → DrainState → Option DrainState
  | 0, _ => none
  | fuel + 1, s =>
      match bufferRead s.priv s.byte_from_buffer with
      | (BUFFER_EMPTY, priv1, byte1) =>
          some { s with priv := priv1, byte_from_buffer := byte1 }
      | (_, priv1, byte1) =>
          let priv2 : mchp_3d_i2c_priv :=
            { priv1 with
              rx_buf := fun k => if (k : Int) = s.i then byte1 else priv1.rx_buf k }
          let i := s.i + 1
          let s1 : DrainState :=
            { priv := priv2, i := i, byte_from_buffer := byte1,
              written := s.written ++ [s.i] }
          if i = priv2.rx_len then some s1 else drainLoop fuel s1

/-- What one call of `receive_buffer_show` did: the device record it leaves,
the calls into the I2C core, the bytes copied to `buf`, the value returned and
the indices of the stores into `rx_buf` made by the drain loop. -/
structure ShowResult where
  priv : mchp_3d_i2c_priv
  calls : List I2cCall
  buf : List Byte
  ret : Int
  written : List Int

/-- Function `receive_buffer_show` (lines 360-426).  `bus` is what the
`i2c_master_recv` of line 408 returns and what `rx_buf` holds after it;
`fuel` bounds the drain loop.  The local `byte_from_buffer` is not read before
`bufferRead` has set it.  The subtraction `stream_buffer_size -= i` is taken
in `Int`: `i` is at most the residency and signed overflow is undefined in C. -/
def receive_buffer_show (priv : mchp_3d_i2c_priv) (bus : Int × Mem) (fuel : Nat) :
    Option ShowResult :=
  if priv.isReadingStreamBuffer ≠ 0 then
    let priv1 := { priv with isReadingStreamBuffer := 0 }
    match drainLoop fuel { priv := priv1, i := 0, byte_from_buffer := 0, written := [] } with
    | none => none
    | some s =>
        let priv2 :=
          { s.priv with
            stream_buffer_size := s.priv.stream_buffer_size - s.i
            rx_len := 0 }
        some
          { priv := priv2
            calls := []
            buf := (List.range s.i.toNat).map priv2.rx_buf
            ret := s.i
            written := s.written }
  else
    let ret := bus.1
    let priv1 := { priv with rx_buf := bus.2, rx_len := 0 }
    if ret < 0 then
      some
        { priv := priv1, calls := [I2cCall.i2c_master_recv priv.rx_len], buf := [], ret := 0,
          written := [] }
    else
      some
        { priv := priv1
          calls := [I2cCall.i2c_master_recv priv.rx_len]
          buf := (List.range ret.toNat).map priv1.rx_buf
          ret := ret
          written := [] }

/-- What one call of `send_buffer_store` did: the device record it leaves, the
calls into the I2C core and the value returned. -/
structure StoreResult where
  priv : mchp_3d_i2c_priv
  calls : List I2cCall
  ret : Int

/-- Function `send_buffer_store` (lines 444-498).  `buf` is `none` for a null
pointer. -/
def send_buffer_store (priv : mchp_3d_i2c_priv) (buf : Option Mem) (count : Nat) :
    StoreResult :=
  match buf with
  | none => { priv := priv, calls := [], ret := 0 }
  | some buf =>
      if count > 256 then
        { priv := priv, calls := [], ret := 0 }
      else
        let address := buf 0
        let tx_len := buf 1
        if tx_len.val = 0 ∧ address.val = 0xfe then
          { priv := { priv with isReadingStreamBuffer := 1 }, calls := [], ret := (count : Int) }
        else
          let tx_buf : List Byte :=
            address :: (List.range tx_len.val).map fun k => buf (k + 1 + 1)
          { priv := priv, calls := [I2cCall.i2c_master_send tx_buf], ret := (count : Int) }

/-- A device record in Streaming mode whose ring buffer holds the given bytes
from slot `0` on, with pending length `rx_len`. -/
def streamingPriv (rx_len : Int) (bytes : List Byte) : mchp_3d_i2c_priv :=
  { emptyPriv with
    rx_len := rx_len
    isReadingStreamBuffer := 1
    circularBuffer :=
      { data := fun k => bytes.getD k 0, newestIndex := bytes.length, oldestIndex := 0 } }

/-! ## Arithmetic reading of the frame layout -/

/-- The 16-bit little-endian value of the two bytes at `data[i]`, `data[i+1]`,
written with `+` and `*`. -/
def le16 (data : Mem) (i : Nat) : Nat :=
  (data i).val + 256 * (data (i + 1)).val

/-- The 32-bit little-endian value of the four bytes at `data[i] .. data[i+3]`,
written with `+` and `*`. -/
def le32 (data : Mem) (i : Nat) : Nat :=
  (data i).val + 256 * (data (i + 1)).val + 65536 * (data (i + 2)).val
    + 16777216 * (data (i + 3)).val

/-- The output-config mask of a message: the 16-bit little-endian value of
bytes 3 and 4. -/
def maskOf (data : Mem) : Nat := le16 data 3

/-- Whether a call into the input core is an absolute-axis report. -/
def isAbs : InputCall → Bool
  | input_report_abs _ _ => true
  | _ => false

/-- A payload that is `0` everywhere except at the listed `(index, byte)`
pairs; the first pair for an index wins. -/
def memOf (cells : List (Nat × Byte)) : Mem :=
  fun i => ((cells.find? fun c => c.1 == i).map Prod.snd).getD 0

/-- Whether a call of the handshake is a receive or a `printk`. -/
def isRecvOrLog : ProbeCall → Bool
  | ProbeCall.i2c_master_recv _ => true
  | ProbeCall.printk _ => true
  | _ => false

/-- Whether a call of the handshake is a receive. -/
def isRecv : ProbeCall → Bool
  | ProbeCall.i2c_master_recv _ => true
  | _ => false

/-- The handshake state is consistent with the responses `resp`: `fw_buffer`
and `msg_size` hold the last response received, the responses classified are
those before it, all of nonzero declared length, and `loopcount` is either the
budget left or `-1` after a response of declared length zero. -/
def ProbeInv (resp : Nat → Mem) (s : ProbeState) : Prop :=
  s.fw_buffer = resp (s.received - 1) ∧
  s.msg_size = ((resp (s.received - 1) 0).val : Int) ∧
  s.received = s.classified.length + 1 ∧
  s.classified = List.range s.classified.length ∧
  (∀ k, k < s.classified.length → (resp k 0).val ≠ 0) ∧
  (s.calls.filter isRecv).length = s.received ∧
  s.classified.length ≤ 5 ∧
  (s.loopcount = 5 - (s.classified.length : Int) ∨
    (s.loopcount = -1 ∧ (resp (s.received - 1) 0).val = 0 ∧ s.classified.length < 5))

/-- The state after one evaluation of the drain-loop condition that did not
find the ring buffer empty, followed by the store and the increment of lines
376-378. -/
def drainBody (s : DrainState) : DrainState :=
  { priv :=
      { (bufferRead s.priv s.byte_from_buffer).2.1 with
        rx_buf := fun k =>
          if (k : Int) = s.i then (bufferRead s.priv s.byte_from_buffer).2.2
          else (bufferRead s.priv s.byte_from_buffer).2.1.rx_buf k }
    i := s.i + 1
    byte_from_buffer := (bufferRead s.priv s.byte_from_buffer).2.2
    written := s.written ++ [s.i] }

/-! ## Ring buffer: lemmas -/

theorem bufferWrite_full_iff (priv : mchp_3d_i2c_priv) (b : Byte) :
    (bufferWrite priv b).1 = BUFFER_FULL ↔
      ((priv.circularBuffer.newestIndex + 1) % UINT_RANGE) % BUFFER_SIZE
        = priv.circularBuffer.oldestIndex := by
  unfold bufferWrite
  by_cases h : ((priv.circularBuffer.newestIndex + 1) % UINT_RANGE) % BUFFER_SIZE
      = priv.circularBuffer.oldestIndex
  · simp [h]
  · simp [h]

theorem bufferWrite_step (priv : mchp_3d_i2c_priv) (b : Byte) (h : IndicesInRange priv) :
    (resident priv = 1999 ∧ bufferWrite priv b = (BUFFER_FULL, priv)) ∨
    (resident priv < 1999 ∧ (bufferWrite priv b).1 = BUFFER_OK ∧
      IndicesInRange (bufferWrite priv b).2 ∧
      resident (bufferWrite priv b).2 = resident priv + 1 ∧
      pending (bufferWrite priv b).2 = pending priv ++ [b]) := by
  obtain ⟨hn, ho⟩ := h
  simp only [BUFFER_SIZE] at hn ho
  by_cases hf : ((priv.circularBuffer.newestIndex + 1) % UINT_RANGE) % BUFFER_SIZE
      = priv.circularBuffer.oldestIndex
  · left
    refine ⟨?_, ?_⟩
    · simp only [resident, BUFFER_SIZE, UINT_RANGE] at hf ⊢
      omega
    · simp [bufferWrite, hf]
  · right
    have hres : resident priv < 1999 := by
      simp only [resident, BUFFER_SIZE, UINT_RANGE] at hf ⊢
      omega
    have hw : bufferWrite priv b = (BUFFER_OK,
        { priv with
          circularBuffer :=
            { priv.circularBuffer with
              data := fun i =>
                if i = priv.circularBuffer.newestIndex then b
                else priv.circularBuffer.data i
              newestIndex :=
                ((priv.circularBuffer.newestIndex + 1) % UINT_RANGE) % BUFFER_SIZE } }) := by
      simp [bufferWrite, hf]
    have hres1 : resident (bufferWrite priv b).2 = resident priv + 1 := by
      rw [hw]
      simp only [resident, BUFFER_SIZE, UINT_RANGE] at hf ⊢
      omega
    refine ⟨hres, by rw [hw], ?_, hres1, ?_⟩
    · rw [hw]
      simp only [IndicesInRange, BUFFER_SIZE, UINT_RANGE]
      omega
    · unfold pending
      rw [hres1, List.range_succ, List.map_append]
      congr 1
      · apply List.map_congr_left
        intro i hi
        rw [List.mem_range] at hi
        rw [hw]
        have hne : (priv.circularBuffer.oldestIndex + i) % BUFFER_SIZE
            ≠ priv.circularBuffer.newestIndex := by
          simp only [resident, BUFFER_SIZE] at hi ⊢
          omega
        simp [hne]
      · rw [hw]
        have he : (priv.circularBuffer.oldestIndex + resident priv) % BUFFER_SIZE
            = priv.circularBuffer.newestIndex := by
          simp only [resident, BUFFER_SIZE]
          omega
        simp [he]

theorem bufferRead_step (priv : mchp_3d_i2c_priv) (byte : Byte) (h : IndicesInRange priv) :
    (resident priv = 0 ∧ bufferRead priv byte = (BUFFER_EMPTY, priv, byte)) ∨
    (0 < resident priv ∧ (bufferRead priv byte).1 = BUFFER_OK ∧
      IndicesInRange (bufferRead priv byte).2.1 ∧
      resident priv = resident (bufferRead priv byte).2.1 + 1 ∧
      pending priv = (bufferRead priv byte).2.2 :: pending (bufferRead priv byte).2.1) := by
  obtain ⟨hn, ho⟩ := h
  simp only [BUFFER_SIZE] at hn ho
  by_cases he : priv.circularBuffer.newestIndex = priv.circularBuffer.oldestIndex
  · left
    refine ⟨?_, ?_⟩
    · simp only [resident, BUFFER_SIZE]
      omega
    · simp [bufferRead, he]
  · right
    have hres : 0 < resident priv := by
      simp only [resident, BUFFER_SIZE]
      omega
    have hr : bufferRead priv byte = (BUFFER_OK,
        { priv with
          circularBuffer :=
            { priv.circularBuffer with
              oldestIndex :=
                ((priv.circularBuffer.oldestIndex + 1) % UINT_RANGE) % BUFFER_SIZE } },
        priv.circularBuffer.data priv.circularBuffer.oldestIndex) := by
      simp [bufferRead, he]
    have hres1 : resident priv = resident (bufferRead priv byte).2.1 + 1 := by
      rw [hr]
      simp only [resident, BUFFER_SIZE, UINT_RANGE]
      omega
    refine ⟨hres, by rw [hr], ?_, hres1, ?_⟩
    · rw [hr]
      simp only [IndicesInRange, BUFFER_SIZE, UINT_RANGE]
      omega
    · unfold pending
      rw [hres1, List.range_succ_eq_map, List.map_cons, List.map_map]
      rw [hr]
      congr 1
      · have : priv.circularBuffer.oldestIndex % BUFFER_SIZE
            = priv.circularBuffer.oldestIndex := Nat.mod_eq_of_lt ho
        simp [this]
      · apply List.map_congr_left
        intro i _
        have : (priv.circularBuffer.oldestIndex + (i + 1)) % BUFFER_SIZE
            = ((priv.circularBuffer.oldestIndex + 1) % UINT_RANGE % BUFFER_SIZE + i)
                % BUFFER_SIZE := by
          simp only [BUFFER_SIZE, UINT_RANGE]
          omega
        simp [this]

theorem runOps_write_ok (ops : List RingOp) (priv : mchp_3d_i2c_priv) (b : Byte)
    (h : (bufferWrite priv b).1 = BUFFER_OK) :
    runOps (RingOp.write b :: ops) priv =
      { runOps ops (bufferWrite priv b).2 with
        accepted := b :: (runOps ops (bufferWrite priv b).2).accepted } := by
  rw [runOps]
  generalize bufferWrite priv b = r at h
  obtain ⟨st, p⟩ := r
  simp only at h
  subst h
  rfl

theorem runOps_write_full (ops : List RingOp) (priv : mchp_3d_i2c_priv) (b : Byte)
    (h : bufferWrite priv b = (BUFFER_FULL, priv)) :
    runOps (RingOp.write b :: ops) priv = runOps ops priv := by
  rw [runOps, h]

theorem runOps_read_ok (ops : List RingOp) (priv : mchp_3d_i2c_priv)
    (h : (bufferRead priv 0).1 = BUFFER_OK) :
    runOps (RingOp.read :: ops) priv =
      { runOps ops (bufferRead priv 0).2.1 with
        delivered := (bufferRead priv 0).2.2 :: (runOps ops (bufferRead priv 0).2.1).delivered } := by
  rw [runOps]
  generalize bufferRead priv 0 = r at h
  obtain ⟨st, p, y⟩ := r
  simp only at h
  subst h
  rfl

theorem runOps_read_empty (ops : List RingOp) (priv : mchp_3d_i2c_priv)
    (h : bufferRead priv 0 = (BUFFER_EMPTY, priv, 0)) :
    runOps (RingOp.read :: ops) priv = runOps ops priv := by
  rw [runOps, h]

/-- From any state with in-range indices, the delivered bytes are an initial
segment of the bytes already stored followed by the bytes accepted. -/
theorem runOps_delivered (ops : List RingOp) :
    ∀ priv : mchp_3d_i2c_priv, IndicesInRange priv →
      (runOps ops priv).delivered =
        List.take (runOps ops priv).delivered.length
          (pending priv ++ (runOps ops priv).accepted) := by
  induction ops with
  | nil => intro priv _; simp [runOps]
  | cons op ops ih =>
    intro priv hpriv
    cases op with
    | write b =>
      rcases bufferWrite_step priv b hpriv with ⟨_, hfull⟩ | ⟨_, hok, hin, _, hpend⟩
      · rw [runOps_write_full ops priv b hfull]
        exact ih priv hpriv
      · rw [runOps_write_ok ops priv b hok]
        have := ih _ hin
        rw [hpend, List.append_assoc] at this
        simpa using this
    | read =>
      rcases bufferRead_step priv 0 hpriv with ⟨_, hempty⟩ | ⟨_, hok, hin, _, hpend⟩
      · rw [runOps_read_empty ops priv hempty]
        exact ih priv hpriv
      · rw [runOps_read_ok ops priv hok]
        have := ih _ hin
        rw [hpend]
        simp only [List.length_cons, List.cons_append, List.take_succ_cons]
        rw [← this]

/-- From any state with in-range indices, the indices stay in range and the
residency changes by the accepted writes minus the delivered reads. -/
theorem runOps_resident (ops : List RingOp) :
    ∀ priv : mchp_3d_i2c_priv, IndicesInRange priv →
      IndicesInRange (runOps ops priv).final ∧
        resident (runOps ops priv).final + (runOps ops priv).delivered.length =
          resident priv + (runOps ops priv).accepted.length := by
  induction ops with
  | nil => intro priv h; simpa [runOps] using h
  | cons op ops ih =>
    intro priv hpriv
    cases op with
    | write b =>
      rcases bufferWrite_step priv b hpriv with ⟨_, hfull⟩ | ⟨_, hok, hin, hres, _⟩
      · rw [runOps_write_full ops priv b hfull]
        exact ih priv hpriv
      · rw [runOps_write_ok ops priv b hok]
        obtain ⟨h1, h2⟩ := ih _ hin
        refine ⟨h1, ?_⟩
        simp only [List.length_cons]
        omega
    | read =>
      rcases bufferRead_step priv 0 hpriv with ⟨_, hempty⟩ | ⟨_, hok, hin, hres, _⟩
      · rw [runOps_read_empty ops priv hempty]
        exact ih priv hpriv
      · rw [runOps_read_ok ops priv hok]
        obtain ⟨h1, h2⟩ := ih _ hin
        refine ⟨h1, ?_⟩
        simp only [List.length_cons]
        omega

/-- Writes that fit are all accepted. -/
theorem runOps_writes_fit (bs : List Byte) :
    ∀ priv : mchp_3d_i2c_priv, IndicesInRange priv →
      resident priv + bs.length ≤ 1999 →
      (runOps (bs.map RingOp.write) priv).accepted = bs ∧
        (runOps (bs.map RingOp.write) priv).delivered = [] := by
  induction bs with
  | nil => intro priv _ _; simp [runOps]
  | cons b bs ih =>
    intro priv hpriv hlen
    simp only [List.length_cons] at hlen
    rcases bufferWrite_step priv b hpriv with ⟨hres, _⟩ | ⟨_, hok, hin, hres, _⟩
    · omega
    · rw [List.map_cons, runOps_write_ok _ priv b hok]
      obtain ⟨h1, h2⟩ := ih _ hin (by omega)
      simp [h1, h2]

theorem resident_of_zero (priv : mchp_3d_i2c_priv)
    (hn : priv.circularBuffer.newestIndex = 0) (ho : priv.circularBuffer.oldestIndex = 0) :
    IndicesInRange priv ∧ resident priv = 0 ∧ pending priv = [] := by
  have hr : resident priv = 0 := by simp [resident, hn, ho]
  refine ⟨by simp [IndicesInRange, hn, ho], hr, ?_⟩
  simp [pending, hr]

/-- Conservation: the bytes stored at the start followed by the bytes accepted
are the bytes delivered followed by the bytes still stored at the end. -/
theorem runOps_conserve (ops : List RingOp) :
    ∀ priv : mchp_3d_i2c_priv, IndicesInRange priv →
      pending priv ++ (runOps ops priv).accepted =
        (runOps ops priv).delivered ++ pending (runOps ops priv).final := by
  induction ops with
  | nil => intro priv _; simp [runOps]
  | cons op ops ih =>
    intro priv hpriv
    cases op with
    | write b =>
      rcases bufferWrite_step priv b hpriv with ⟨_, hfull⟩ | ⟨_, hok, hin, _, hpend⟩
      · rw [runOps_write_full ops priv b hfull]
        exact ih priv hpriv
      · rw [runOps_write_ok ops priv b hok]
        have := ih _ hin
        rw [hpend, List.append_assoc] at this
        simpa using this
    | read =>
      rcases bufferRead_step priv 0 hpriv with ⟨_, hempty⟩ | ⟨_, hok, hin, _, hpend⟩
      · rw [runOps_read_empty ops priv hempty]
        exact ih priv hpriv
      · rw [runOps_read_ok ops priv hok]
        have := ih _ hin
        rw [hpend]
        simp only [List.cons_append]
        rw [this]

/-- Running two sequences of calls one after the other. -/
theorem runOps_append (a b : List RingOp) :
    ∀ priv : mchp_3d_i2c_priv,
      runOps (a ++ b) priv =
        { final := (runOps b (runOps a priv).final).final
          delivered := (runOps a priv).delivered ++ (runOps b (runOps a priv).final).delivered
          accepted := (runOps a priv).accepted ++ (runOps b (runOps a priv).final).accepted } := by
  induction a with
  | nil => intro priv; simp [runOps]
  | cons op a ih =>
    intro priv
    cases op with
    | write x =>
      simp only [List.cons_append, runOps]
      rcases hb : bufferWrite priv x with ⟨st, p⟩
      cases st <;> simp [ih]
    | read =>
      simp only [List.cons_append, runOps]
      rcases hb : bufferRead priv 0 with ⟨st, p, y⟩
      cases st <;> simp [ih]

/-- Reading as many times as bytes are stored delivers exactly the stored
bytes, oldest first. -/
theorem runOps_drain (n : Nat) :
    ∀ priv : mchp_3d_i2c_priv, IndicesInRange priv → resident priv = n →
      (runOps (List.replicate n RingOp.read) priv).delivered = pending priv := by
  induction n with
  | zero =>
    intro priv _ hres
    simp [runOps, pending, hres]
  | succ n ih =>
    intro priv hpriv hres
    rcases bufferRead_step priv 0 hpriv with ⟨h0, _⟩ | ⟨_, hok, hin, hres1, hpend⟩
    · omega
    · rw [List.replicate_succ, runOps_read_ok _ priv hok, hpend]
      simp only
      rw [ih _ hin (by omega)]

/-! ## Ring buffer: theorems -/

/-- C1: for every sequence of `bufferWrite` and `bufferRead` calls on a ring
buffer that starts empty with both indices `0`, the bytes delivered by the
reads that returned `BUFFER_OK` are, in order, the first `k` bytes accepted by
the writes that returned `BUFFER_OK`, `k` being the number of such reads, and
`k` never exceeds the number of accepted bytes.  No byte is lost: the accepted
bytes are the delivered bytes followed by the bytes still stored between
`oldestIndex` and `newestIndex`, and as many further reads as bytes were
accepted and not yet delivered deliver exactly the remaining accepted bytes, so
that all reads together deliver the accepted bytes, each once and in order. -/
theorem ring_fifo (ops : List RingOp) (priv : mchp_3d_i2c_priv)
    (hn : priv.circularBuffer.newestIndex = 0) (ho : priv.circularBuffer.oldestIndex = 0) :
    (runOps ops priv).delivered =
        List.take (runOps ops priv).delivered.length (runOps ops priv).accepted ∧
      (runOps ops priv).delivered.length ≤ (runOps ops priv).accepted.length ∧
      (runOps ops priv).accepted =
        (runOps ops priv).delivered ++ pending (runOps ops priv).final ∧
      (runOps
          (ops ++ List.replicate
            ((runOps ops priv).accepted.length - (runOps ops priv).delivered.length)
            RingOp.read) priv).delivered = (runOps ops priv).accepted ∧
      (runOps
          (ops ++ List.replicate
            ((runOps ops priv).accepted.length - (runOps ops priv).delivered.length)
            RingOp.read) priv).accepted = (runOps ops priv).accepted := by
  obtain ⟨hin, hres, hpend⟩ := resident_of_zero priv hn ho
  obtain ⟨hfin, hcount⟩ := runOps_resident ops priv hin
  have hcons := runOps_conserve ops priv hin
  rw [hpend, List.nil_append] at hcons
  have hn2 : (runOps ops priv).accepted.length - (runOps ops priv).delivered.length
      = resident (runOps ops priv).final := by omega
  have hdrain := runOps_drain _ (runOps ops priv).final hfin hn2.symm
  have hacc : ∀ (n : Nat) (p : mchp_3d_i2c_priv),
      (runOps (List.replicate n RingOp.read) p).accepted = [] := by
    intro n
    induction n with
    | zero => intro p; rfl
    | succ n ih =>
      intro p
      rw [List.replicate_succ, runOps]
      rcases hb : bufferRead p 0 with ⟨st, q, y⟩
      cases st <;> simp [ih]
  refine ⟨?_, by omega, hcons, ?_, ?_⟩
  · have h := runOps_delivered ops priv hin
    rw [hpend, List.nil_append] at h
    exact h
  · rw [runOps_append]
    simp only
    rw [hdrain, ← hcons]
  · rw [runOps_append]
    simp only
    rw [hacc, List.append_nil]

/-- Witness for C1: two writes, a read, a write and a read; one byte is still
stored, and one further read delivers it. -/
theorem ring_fifo_witness :
    emptyPriv.circularBuffer.newestIndex = 0 ∧ emptyPriv.circularBuffer.oldestIndex = 0 ∧
    (runOps [RingOp.write 7, RingOp.write 9, RingOp.read, RingOp.write 3, RingOp.read]
        emptyPriv).accepted =
      (runOps [RingOp.write 7, RingOp.write 9, RingOp.read, RingOp.write 3, RingOp.read]
        emptyPriv).delivered ++
      pending
        (runOps [RingOp.write 7, RingOp.write 9, RingOp.read, RingOp.write 3, RingOp.read]
          emptyPriv).final :=
  ⟨rfl, rfl,
    (ring_fifo [RingOp.write 7, RingOp.write 9, RingOp.read, RingOp.write 3, RingOp.read]
      emptyPriv rfl rfl).2.2.1⟩

/-- C2: in a state with both indices below 2000, `bufferWrite` returns
`BUFFER_FULL` exactly when `(newestIndex + 1) mod 2000 = oldestIndex` and
`bufferRead` returns `BUFFER_EMPTY` exactly when `newestIndex = oldestIndex`;
a call returning `BUFFER_FULL` or `BUFFER_EMPTY` leaves the whole device record
(data array and both indices included) and `*byte` unchanged, and every other
call returns `BUFFER_OK`. -/
theorem ring_full_empty (priv : mchp_3d_i2c_priv) (b byte : Byte)
    (hn : priv.circularBuffer.newestIndex < 2000)
    (ho : priv.circularBuffer.oldestIndex < 2000) :
    ((bufferWrite priv b).1 = BUFFER_FULL ↔
        (priv.circularBuffer.newestIndex + 1) % 2000 = priv.circularBuffer.oldestIndex) ∧
    ((bufferRead priv byte).1 = BUFFER_EMPTY ↔
        priv.circularBuffer.newestIndex = priv.circularBuffer.oldestIndex) ∧
    ((bufferWrite priv b).1 = BUFFER_FULL → (bufferWrite priv b).2 = priv) ∧
    ((bufferRead priv byte).1 = BUFFER_EMPTY →
        (bufferRead priv byte).2.1 = priv ∧ (bufferRead priv byte).2.2 = byte) ∧
    ((bufferWrite priv b).1 ≠ BUFFER_FULL → (bufferWrite priv b).1 = BUFFER_OK) ∧
    ((bufferRead priv byte).1 ≠ BUFFER_EMPTY → (bufferRead priv byte).1 = BUFFER_OK) := by
  have hmod : ((priv.circularBuffer.newestIndex + 1) % UINT_RANGE) % BUFFER_SIZE
      = (priv.circularBuffer.newestIndex + 1) % 2000 := by
    simp only [UINT_RANGE, BUFFER_SIZE]
    omega
  refine ⟨?_, ?_, ?_, ?_, ?_, ?_⟩
  · rw [bufferWrite_full_iff, hmod]
  · unfold bufferRead
    by_cases h : priv.circularBuffer.newestIndex = priv.circularBuffer.oldestIndex
    · simp [h]
    · simp [h]
  · unfold bufferWrite
    by_cases h : ((priv.circularBuffer.newestIndex + 1) % UINT_RANGE) % BUFFER_SIZE
        = priv.circularBuffer.oldestIndex
    · simp [h]
    · simp [h]
  · unfold bufferRead
    by_cases h : priv.circularBuffer.newestIndex = priv.circularBuffer.oldestIndex
    · simp [h]
    · simp [h]
  · unfold bufferWrite
    by_cases h : ((priv.circularBuffer.newestIndex + 1) % UINT_RANGE) % BUFFER_SIZE
        = priv.circularBuffer.oldestIndex
    · simp [h]
    · simp [h]
  · unfold bufferRead
    by_cases h : priv.circularBuffer.newestIndex = priv.circularBuffer.oldestIndex
    · simp [h]
    · simp [h]

/-- Witness for C2, at the empty sample record. -/
theorem ring_full_empty_witness :
    emptyPriv.circularBuffer.newestIndex < 2000 ∧
    emptyPriv.circularBuffer.oldestIndex < 2000 ∧
    ((bufferWrite emptyPriv 5).1 = BUFFER_FULL ↔
        (emptyPriv.circularBuffer.newestIndex + 1) % 2000
          = emptyPriv.circularBuffer.oldestIndex) ∧
    ((bufferRead emptyPriv 6).1 = BUFFER_EMPTY ↔
        emptyPriv.circularBuffer.newestIndex = emptyPriv.circularBuffer.oldestIndex) :=
  ⟨by decide, by decide,
    (ring_full_empty emptyPriv 5 6 (by decide) (by decide)).1,
    (ring_full_empty emptyPriv 5 6 (by decide) (by decide)).2.1⟩

/-- C3: in every state reached from the empty state (both indices `0`) by a
sequence of `bufferWrite` and `bufferRead` calls, both indices are below 2000
and the number of resident bytes (accepted writes minus delivered reads) equals
`(newestIndex - oldestIndex) mod 2000` and is at most 1999; and after 1999
consecutive writes to the empty buffer, all of which are accepted, the next
write returns `BUFFER_FULL`. -/
theorem ring_capacity (ops : List RingOp) (bs : List Byte) (b : Byte)
    (priv : mchp_3d_i2c_priv)
    (hn : priv.circularBuffer.newestIndex = 0) (ho : priv.circularBuffer.oldestIndex = 0)
    (hlen : bs.length = 1999) :
    ((runOps ops priv).final.circularBuffer.newestIndex < 2000 ∧
     (runOps ops priv).final.circularBuffer.oldestIndex < 2000 ∧
     ((runOps ops priv).accepted.length : Int) - ((runOps ops priv).delivered.length : Int) =
       (((runOps ops priv).final.circularBuffer.newestIndex : Int)
         - ((runOps ops priv).final.circularBuffer.oldestIndex : Int)) % 2000 ∧
     ((runOps ops priv).accepted.length : Int) - ((runOps ops priv).delivered.length : Int)
       ≤ 1999) ∧
    ((runOps (bs.map RingOp.write) priv).accepted = bs ∧
     (bufferWrite (runOps (bs.map RingOp.write) priv).final b).1 = BUFFER_FULL) := by
  obtain ⟨hin, hres, _⟩ := resident_of_zero priv hn ho
  refine ⟨?_, ?_⟩
  · obtain ⟨⟨h1, h2⟩, h3⟩ := runOps_resident ops priv hin
    simp only [BUFFER_SIZE] at h1 h2
    simp only [resident, BUFFER_SIZE] at h3 hres
    refine ⟨h1, h2, ?_, ?_⟩ <;> omega
  · obtain ⟨ha, hd⟩ := runOps_writes_fit bs priv hin (by omega)
    refine ⟨ha, ?_⟩
    obtain ⟨hfin, h3⟩ := runOps_resident (bs.map RingOp.write) priv hin
    rw [ha, hd, hres, hlen] at h3
    rcases bufferWrite_step (runOps (bs.map RingOp.write) priv).final b hfin with
      ⟨_, hfull⟩ | ⟨hlt, _⟩
    · rw [hfull]
    · simp only [List.length_nil] at h3
      omega

/-- Witness for C3: 1999 zero bytes written to the empty sample
record. -/
theorem ring_capacity_witness :
    emptyPriv.circularBuffer.newestIndex = 0 ∧ emptyPriv.circularBuffer.oldestIndex = 0 ∧
    (List.replicate 1999 (0 : Byte)).length = 1999 ∧
    (runOps ((List.replicate 1999 (0 : Byte)).map RingOp.write) emptyPriv).accepted
      = List.replicate 1999 (0 : Byte) ∧
    (bufferWrite (runOps ((List.replicate 1999 (0 : Byte)).map RingOp.write) emptyPriv).final
      1).1 = BUFFER_FULL :=
  ⟨rfl, rfl, List.length_replicate 1999 0,
    (ring_capacity [] (List.replicate 1999 0) 1 emptyPriv rfl rfl
      (List.length_replicate 1999 0)).2⟩

/-! ## Bit-level lemmas -/

theorem byte_and_ff (b : Byte) : b.val &&& 0xFF = b.val := by
  have h := Nat.and_pow_two_sub_one_eq_mod b.val 8
  have h2 : b.val % 2 ^ 8 = b.val := Nat.mod_eq_of_lt b.isLt
  rw [h2] at h
  exact h

theorem and_bit_iff (m k : Nat) : m &&& 2 ^ k = 2 ^ k ↔ m.testBit k = true := by
  constructor
  · intro h
    have := congrArg (fun x => x.testBit k) h
    simpa [Nat.testBit_two_pow_self] using this
  · intro h
    apply Nat.eq_of_testBit_eq
    intro i
    rw [Nat.testBit_and, Nat.testBit_two_pow]
    by_cases hik : k = i
    · subst hik; simp [h]
    · simp [hik]

theorem bit_field (g k n : Nat) :
    (g &&& ((2 ^ n - 1) <<< k)) >>> k = g / 2 ^ k % 2 ^ n := by
  apply Nat.eq_of_testBit_eq
  intro i
  rw [← Nat.shiftRight_eq_div_pow, Nat.testBit_mod_two_pow]
  simp only [Nat.testBit_shiftRight, Nat.testBit_and, Nat.testBit_shiftLeft,
    Nat.testBit_two_pow_sub_one]
  by_cases h : i < n <;> simp [h, Nat.add_comm]

theorem field_type (g : Nat) : g &&& 0x0000000F = g % 16 :=
  Nat.and_pow_two_sub_one_eq_mod g 4

theorem field_class (g : Nat) : (g &&& 0x0000F000) >>> 12 = g / 4096 % 16 :=
  bit_field g 12 4

theorem field_edge (g : Nat) : (g &&& 0x00010000) >>> 16 = g / 65536 % 2 :=
  bit_field g 16 1

theorem field_progress (g : Nat) : (g &&& 0x80000000) >>> 31 = g / 2147483648 % 2 :=
  bit_field g 31 1

theorem le16_or (lo hi : Byte) :
    ((hi.val <<< 8) &&& 0xff00) ||| (lo.val &&& 0xff) = lo.val + 256 * hi.val := by
  rw [byte_and_ff]
  have e : (0xff00 : Nat) = (2 ^ 8 - 1) <<< 8 := by decide
  have h1 : (hi.val <<< 8) &&& 0xff00 = 2 ^ 8 * hi.val := by
    apply Nat.eq_of_testBit_eq
    intro i
    rw [e, Nat.mul_comm, ← Nat.shiftLeft_eq]
    simp only [Nat.testBit_and, Nat.testBit_shiftLeft, Nat.testBit_two_pow_sub_one]
    by_cases h : 8 ≤ i
    · by_cases h2 : i - 8 < 8
      · simp [h, h2]
      · have : hi.val.testBit (i - 8) = false := by
          apply Nat.testBit_lt_two_pow
          calc hi.val < 256 := hi.isLt
            _ = 2 ^ 8 := by norm_num
            _ ≤ 2 ^ (i - 8) := Nat.pow_le_pow_right (by norm_num) (by omega)
        simp [h, h2, this]
    · simp [h]
  rw [h1, ← Nat.mul_add_lt_is_or (by simp)]
  omega

theorem le16_sum (data : Mem) (i : Nat) :
    (((data i).val &&& 0xFF) + (((data (i + 1)).val &&& 0xFF) <<< 8)) % UINT_RANGE
      = le16 data i := by
  rw [byte_and_ff, byte_and_ff, Nat.shiftLeft_eq]
  have h0 := (data i).isLt
  have h1 := (data (i + 1)).isLt
  simp only [UINT_RANGE, le16]
  omega

theorem le32_sum (data : Mem) (i : Nat) :
    (((data i).val &&& 0xFF) + (((data (i + 1)).val &&& 0xFF) <<< 8)
      + (((data (i + 2)).val &&& 0xFF) <<< 16)
      + (((data (i + 3)).val &&& 0xFF) <<< 24)) % UINT_RANGE = le32 data i := by
  rw [byte_and_ff, byte_and_ff, byte_and_ff, byte_and_ff, Nat.shiftLeft_eq, Nat.shiftLeft_eq,
    Nat.shiftLeft_eq]
  have h0 := (data i).isLt
  have h1 := (data (i + 1)).isLt
  have h2 := (data (i + 2)).isLt
  have h3 := (data (i + 3)).isLt
  simp only [UINT_RANGE, le32]
  omega

theorem and_bit0 (m : Nat) : m &&& 0x0001 = 1 ↔ m.testBit 0 = true := and_bit_iff m 0

theorem and_bit1 (m : Nat) : m &&& 0x0002 = 2 ↔ m.testBit 1 = true := and_bit_iff m 1

theorem and_bit2 (m : Nat) : m &&& 0x0004 = 4 ↔ m.testBit 2 = true := and_bit_iff m 2

theorem and_bit3 (m : Nat) : m &&& 0x0008 = 8 ↔ m.testBit 3 = true := and_bit_iff m 3

theorem and_bit4 (m : Nat) : m &&& 16 = 16 ↔ m.testBit 4 = true := and_bit_iff m 4

/-! ## Frame decoder: lemmas -/

/-- The three branches of the gesture block, with the gesture word read
arithmetically. -/
theorem gestureBlock_eq (priv : mchp_3d_i2c_priv) (data : Mem) (t : DecodeTrace) :
    gestureBlock priv data t =
      { t with
        element := t.element + 4
        gesture := some
          { gestureType := le32 data t.element % 16
            gestureClass := le32 data t.element / 4096 % 16
            edgeFlick := le32 data t.element / 65536 % 2
            gestureInProgress := le32 data t.element / 2147483648 % 2 }
        dispatched := t.dispatched ++
          (if le32 data t.element / 4096 % 16 = 1
            then gestureSwitch priv (le32 data t.element % 16) else [])
        input := t.input ++
          ((if le32 data t.element / 4096 % 16 = 1
            then gestureSwitch priv (le32 data t.element % 16) else []).map send_input).flatten
        reads := t.reads ++ [t.element, t.element + 1, t.element + 2, t.element + 3] } := by
  simp only [gestureBlock, le32_sum, field_type, field_class, field_edge, field_progress]

theorem positionBlock_eq (data : Mem) (t : DecodeTrace) :
    positionBlock data t =
      { t with
        input := t.input ++
          [input_report_abs AbsAxis.ABS_X (le16 data t.element),
           input_report_abs AbsAxis.ABS_Y (le16 data (t.element + 2)),
           input_report_abs AbsAxis.ABS_Z (le16 data (t.element + 4)), input_sync]
        reads := t.reads ++
          [t.element + 1, t.element, t.element + 3, t.element + 2, t.element + 5,
           t.element + 4] } := by
  simp only [positionBlock, le16_or, le16]

/-- The decoder with its mask tests read as bit tests of `maskOf data`. -/
theorem decode_eq (priv : mchp_3d_i2c_priv) (data : Mem) (size : Int) :
    decode_mgc313X_data priv data size =
      (let t0 : DecodeTrace :=
        { element := 7, gesture := none, airWheel := none, dispatched := [], input := [],
          reads := [3, 4, 6] }
      let t1 := if (maskOf data).testBit 0 = true then { t0 with element := t0.element + 2 }
        else t0
      let t2 := if (maskOf data).testBit 1 = true then gestureBlock priv data t1 else t1
      let t3 := if (maskOf data).testBit 2 = true then { t2 with element := t2.element + 4 }
        else t2
      let t4 := if (maskOf data).testBit 3 = true then airWheelBlock data (data 6).val t3
        else t3
      if (maskOf data).testBit 4 = true then positionBlock data t4 else t4) := by
  simp only [decode_mgc313X_data, le16_sum, and_bit0, and_bit1, and_bit2, and_bit3, and_bit4,
    maskOf]

theorem send_input_no_abs (id : Int) : (send_input id).filter isAbs = [] := by
  unfold send_input
  split_ifs <;> simp [isAbs]

theorem dispatch_no_abs (ids : List Int) :
    ((ids.map send_input).flatten).filter isAbs = [] := by
  induction ids with
  | nil => simp
  | cons id ids ih =>
    simp only [List.map_cons, List.flatten_cons, List.filter_append, ih, send_input_no_abs,
      List.append_nil]

theorem gestureSwitch_length (priv : mchp_3d_i2c_priv) (ty : Nat) :
    (gestureSwitch priv ty).length ≤ 1 := by
  unfold gestureSwitch
  split <;> simp

/-- With the gesture bit set, the `send_input` arguments are those of the
`switch` on the type field, taken when the class field is `1`. -/
theorem decode_dispatched (priv : mchp_3d_i2c_priv) (data : Mem) (size : Int)
    (hbit : (maskOf data).testBit 1 = true) :
    (decode_mgc313X_data priv data size).dispatched =
      if le32 data (7 + 2 * ((maskOf data).testBit 0).toNat) / 4096 % 16 = 1 then
        gestureSwitch priv (le32 data (7 + 2 * ((maskOf data).testBit 0).toNat) % 16)
      else [] := by
  rw [decode_eq]
  by_cases h0 : (maskOf data).testBit 0 = true <;>
  by_cases h2 : (maskOf data).testBit 2 = true <;>
  by_cases h3 : (maskOf data).testBit 3 = true <;>
  by_cases h4 : (maskOf data).testBit 4 = true <;>
  by_cases hs : (data 6).val &&& 0x02 = 2 <;>
  simp [hbit, h0, h2, h3, h4, hs, gestureBlock_eq, airWheelBlock, positionBlock_eq]

/-- Without the gesture bit no `send_input` call is made. -/
theorem decode_dispatched_clear (priv : mchp_3d_i2c_priv) (data : Mem) (size : Int)
    (hbit : (maskOf data).testBit 1 = false) :
    (decode_mgc313X_data priv data size).dispatched = [] := by
  rw [decode_eq]
  by_cases h0 : (maskOf data).testBit 0 = true <;>
  by_cases h2 : (maskOf data).testBit 2 = true <;>
  by_cases h3 : (maskOf data).testBit 3 = true <;>
  by_cases h4 : (maskOf data).testBit 4 = true <;>
  by_cases hs : (data 6).val &&& 0x02 = 2 <;>
  simp [hbit, h0, h2, h3, h4, hs, airWheelBlock, positionBlock_eq]

/-- With the position bit set, the input calls are the gesture pulses followed
by one position sample read at the offset fixed by the mask. -/
theorem decode_input_position (priv : mchp_3d_i2c_priv) (data : Mem) (size : Int)
    (hbit : (maskOf data).testBit 4 = true) :
    (decode_mgc313X_data priv data size).input =
      ((decode_mgc313X_data priv data size).dispatched.map send_input).flatten ++
        [input_report_abs AbsAxis.ABS_X
           (le16 data (7 + 2 * ((maskOf data).testBit 0).toNat
             + 4 * ((maskOf data).testBit 1).toNat + 4 * ((maskOf data).testBit 2).toNat
             + 2 * ((maskOf data).testBit 3).toNat)),
         input_report_abs AbsAxis.ABS_Y
           (le16 data (7 + 2 * ((maskOf data).testBit 0).toNat
             + 4 * ((maskOf data).testBit 1).toNat + 4 * ((maskOf data).testBit 2).toNat
             + 2 * ((maskOf data).testBit 3).toNat + 2)),
         input_report_abs AbsAxis.ABS_Z
           (le16 data (7 + 2 * ((maskOf data).testBit 0).toNat
             + 4 * ((maskOf data).testBit 1).toNat + 4 * ((maskOf data).testBit 2).toNat
             + 2 * ((maskOf data).testBit 3).toNat + 4)),
         input_sync] := by
  rw [decode_eq]
  by_cases h0 : (maskOf data).testBit 0 = true <;>
  by_cases h1 : (maskOf data).testBit 1 = true <;>
  by_cases h2 : (maskOf data).testBit 2 = true <;>
  by_cases h3 : (maskOf data).testBit 3 = true <;>
  by_cases hs : (data 6).val &&& 0x02 = 2 <;>
  simp [hbit, h0, h1, h2, h3, hs, gestureBlock_eq, airWheelBlock, positionBlock_eq]

/-- Every index the decoder reads is at most 24. -/
theorem decode_reads_le (priv : mchp_3d_i2c_priv) (data : Mem) (size : Int) :
    ∀ i ∈ (decode_mgc313X_data priv data size).reads, i ≤ 24 := by
  rw [decode_eq]
  by_cases h0 : (maskOf data).testBit 0 = true <;>
  by_cases h1 : (maskOf data).testBit 1 = true <;>
  by_cases h2 : (maskOf data).testBit 2 = true <;>
  by_cases h3 : (maskOf data).testBit 3 = true <;>
  by_cases h4 : (maskOf data).testBit 4 = true <;>
  by_cases hs : (data 6).val &&& 0x02 = 2 <;>
  simp [h0, h1, h2, h3, h4, hs, gestureBlock_eq, airWheelBlock, positionBlock_eq]

/-- The header bytes 3, 4 and 6 are always read first. -/
theorem decode_reads_header (priv : mchp_3d_i2c_priv) (data : Mem) (size : Int) :
    (decode_mgc313X_data priv data size).reads.take 3 = [3, 4, 6] := by
  rw [decode_eq]
  by_cases h0 : (maskOf data).testBit 0 = true <;>
  by_cases h1 : (maskOf data).testBit 1 = true <;>
  by_cases h2 : (maskOf data).testBit 2 = true <;>
  by_cases h3 : (maskOf data).testBit 3 = true <;>
  by_cases h4 : (maskOf data).testBit 4 = true <;>
  by_cases hs : (data 6).val &&& 0x02 = 2 <;>
  simp [h0, h1, h2, h3, h4, hs, gestureBlock_eq, airWheelBlock, positionBlock_eq]

/-! ## Frame decoder: theorems -/

/-- C4: when the output-config mask (16-bit little-endian value of bytes 3 and
4) has the gesture bit (bit 1) set, the gesture word is the 32-bit
little-endian value of the four bytes at offset `7 + 2 * [mask bit 0]`, and
the decoder computes type = word bits `[0:4)`, class = word bits `[12:16)`,
edge flick = word bit 16 and in-progress = word bit 31, for all byte values;
and the bytes `[0x12, 0x10, 0x00, 0x00]` give type 2, class 1, edge flick 0,
in-progress 0. -/
theorem gesture_fields (priv : mchp_3d_i2c_priv) (data : Mem) (size : Int)
    (hbit : (maskOf data).testBit 1 = true) :
    (decode_mgc313X_data priv data size).gesture = some
        { gestureType := le32 data (7 + 2 * ((maskOf data).testBit 0).toNat) % 2 ^ 4
          gestureClass := le32 data (7 + 2 * ((maskOf data).testBit 0).toNat) / 2 ^ 12 % 2 ^ 4
          edgeFlick := le32 data (7 + 2 * ((maskOf data).testBit 0).toNat) / 2 ^ 16 % 2
          gestureInProgress :=
            le32 data (7 + 2 * ((maskOf data).testBit 0).toNat) / 2 ^ 31 % 2 } ∧
      (decode_mgc313X_data priv
          (memOf [(3, 0x02), (4, 0x00), (7, 0x12), (8, 0x10), (9, 0x00), (10, 0x00)])
          size).gesture = some
        { gestureType := 2, gestureClass := 1, edgeFlick := 0, gestureInProgress := 0 } := by
  refine ⟨?_, ?_⟩
  · rw [decode_eq]
    by_cases h0 : (maskOf data).testBit 0 = true <;>
    by_cases h2 : (maskOf data).testBit 2 = true <;>
    by_cases h3 : (maskOf data).testBit 3 = true <;>
    by_cases h4 : (maskOf data).testBit 4 = true <;>
    by_cases hs : (data 6).val &&& 0x02 = 2 <;>
    simp [hbit, h0, h2, h3, h4, hs, gestureBlock_eq, airWheelBlock, positionBlock_eq]
  · rfl

/-- Witness for C4: a message whose mask is `0x0002`. -/
theorem gesture_fields_witness :
    (maskOf (memOf [(3, 0x02), (7, 0x12), (8, 0x10)])).testBit 1 = true ∧
    (decode_mgc313X_data emptyPriv (memOf [(3, 0x02), (7, 0x12), (8, 0x10)]) 11).gesture
      = some
        { gestureType :=
            le32 (memOf [(3, 0x02), (7, 0x12), (8, 0x10)])
              (7 + 2 * ((maskOf (memOf [(3, 0x02), (7, 0x12), (8, 0x10)])).testBit 0).toNat)
              % 2 ^ 4
          gestureClass :=
            le32 (memOf [(3, 0x02), (7, 0x12), (8, 0x10)])
              (7 + 2 * ((maskOf (memOf [(3, 0x02), (7, 0x12), (8, 0x10)])).testBit 0).toNat)
              / 2 ^ 12 % 2 ^ 4
          edgeFlick :=
            le32 (memOf [(3, 0x02), (7, 0x12), (8, 0x10)])
              (7 + 2 * ((maskOf (memOf [(3, 0x02), (7, 0x12), (8, 0x10)])).testBit 0).toNat)
              / 2 ^ 16 % 2
          gestureInProgress :=
            le32 (memOf [(3, 0x02), (7, 0x12), (8, 0x10)])
              (7 + 2 * ((maskOf (memOf [(3, 0x02), (7, 0x12), (8, 0x10)])).testBit 0).toNat)
              / 2 ^ 31 % 2 } :=
  ⟨by decide,
    (gesture_fields emptyPriv (memOf [(3, 0x02), (7, 0x12), (8, 0x10)]) 11 (by decide)).1⟩

/-- C5: when the mask has the 3D-position bit (bit 4) set, the decoder reports
exactly one position sample, `ABS_X`, `ABS_Y`, `ABS_Z` and a sync, after the
gesture pulses if any, with x, y, z the three consecutive 16-bit little-endian
values at offset `7 + 2*[bit 0] + 4*[bit 1] + 4*[bit 2] + 2*[bit 3]`; the
offset is a function of the mask alone.  With only the position bit set and
bytes `[0x34, 0x12, 0x01, 0x00, 0x00, 0x00]` at offset 7 the sample is
x = 0x1234, y = 0x0001, z = 0x0000. -/
theorem position_sample (priv : mchp_3d_i2c_priv) (data : Mem) (size : Int)
    (hbit : (maskOf data).testBit 4 = true) :
    ((decode_mgc313X_data priv data size).input =
        ((decode_mgc313X_data priv data size).dispatched.map send_input).flatten ++
          [input_report_abs AbsAxis.ABS_X
             (le16 data (7 + 2 * ((maskOf data).testBit 0).toNat
               + 4 * ((maskOf data).testBit 1).toNat + 4 * ((maskOf data).testBit 2).toNat
               + 2 * ((maskOf data).testBit 3).toNat)),
           input_report_abs AbsAxis.ABS_Y
             (le16 data (7 + 2 * ((maskOf data).testBit 0).toNat
               + 4 * ((maskOf data).testBit 1).toNat + 4 * ((maskOf data).testBit 2).toNat
               + 2 * ((maskOf data).testBit 3).toNat + 2)),
           input_report_abs AbsAxis.ABS_Z
             (le16 data (7 + 2 * ((maskOf data).testBit 0).toNat
               + 4 * ((maskOf data).testBit 1).toNat + 4 * ((maskOf data).testBit 2).toNat
               + 2 * ((maskOf data).testBit 3).toNat + 4)),
           input_sync] ∧
      (((decode_mgc313X_data priv data size).dispatched.map send_input).flatten).filter isAbs
        = []) ∧
    (decode_mgc313X_data priv
        (memOf [(3, 0x10), (4, 0x00), (7, 0x34), (8, 0x12), (9, 0x01), (10, 0x00), (11, 0x00),
          (12, 0x00)]) size).input =
      [input_report_abs AbsAxis.ABS_X 0x1234, input_report_abs AbsAxis.ABS_Y 0x0001,
       input_report_abs AbsAxis.ABS_Z 0x0000, input_sync] := by
  refine ⟨⟨decode_input_position priv data size hbit, dispatch_no_abs _⟩, ?_⟩
  rw [decode_input_position priv _ size (by decide),
    decode_dispatched_clear priv _ size (by decide)]
  have hx : le16 (memOf [(3, 0x10), (4, 0x00), (7, 0x34), (8, 0x12), (9, 0x01), (10, 0x00),
      (11, 0x00), (12, 0x00)]) 7 = 0x1234 := by decide
  have hy : le16 (memOf [(3, 0x10), (4, 0x00), (7, 0x34), (8, 0x12), (9, 0x01), (10, 0x00),
      (11, 0x00), (12, 0x00)]) 9 = 0x0001 := by decide
  have hz : le16 (memOf [(3, 0x10), (4, 0x00), (7, 0x34), (8, 0x12), (9, 0x01), (10, 0x00),
      (11, 0x00), (12, 0x00)]) 11 = 0x0000 := by decide
  have h0 : (maskOf (memOf [(3, 0x10), (4, 0x00), (7, 0x34), (8, 0x12), (9, 0x01), (10, 0x00),
      (11, 0x00), (12, 0x00)])).testBit 0 = false := by decide
  have h1 : (maskOf (memOf [(3, 0x10), (4, 0x00), (7, 0x34), (8, 0x12), (9, 0x01), (10, 0x00),
      (11, 0x00), (12, 0x00)])).testBit 1 = false := by decide
  have h2 : (maskOf (memOf [(3, 0x10), (4, 0x00), (7, 0x34), (8, 0x12), (9, 0x01), (10, 0x00),
      (11, 0x00), (12, 0x00)])).testBit 2 = false := by decide
  have h3 : (maskOf (memOf [(3, 0x10), (4, 0x00), (7, 0x34), (8, 0x12), (9, 0x01), (10, 0x00),
      (11, 0x00), (12, 0x00)])).testBit 3 = false := by decide
  simp [h0, h1, h2, h3, hx, hy, hz]

/-- Witness for C5: mask `0x001A` (gesture, air wheel and
position), the position block at offset 13. -/
theorem position_sample_witness :
    (maskOf (memOf [(3, 0x1A), (13, 0x34), (14, 0x12), (15, 0x01)])).testBit 4 = true ∧
    (decode_mgc313X_data emptyPriv (memOf [(3, 0x1A), (13, 0x34), (14, 0x12), (15, 0x01)])
        20).input.filter isAbs =
      [input_report_abs AbsAxis.ABS_X 0x1234, input_report_abs AbsAxis.ABS_Y 0x0001,
       input_report_abs AbsAxis.ABS_Z 0x0000] :=
  ⟨by decide, by
    rw [(position_sample emptyPriv (memOf [(3, 0x1A), (13, 0x34), (14, 0x12), (15, 0x01)]) 20
      (by decide)).1.1]
    decide⟩

/-- C6, the code at a failing input: the sensor sends a message of declared
length 8 whose mask selects the position block.  `mgc313x_i2c_readdata` calls
the decoder once with `size = 7`; the decoder reads `data[7] .. data[12]`, all
at or past `size`, and reports a position sample built from them instead of
stopping. -/
theorem decode_reads_past_size :
    ((mgc313x_i2c_readdata emptyPriv true
        (memOf [(0, 8), (4, 0x10), (8, 0x34), (9, 0x12), (10, 0x01)])).decoded.map
      Prod.snd = [7]) ∧
    (mgc313x_i2c_readdata emptyPriv true
        (memOf [(0, 8), (4, 0x10), (8, 0x34), (9, 0x12), (10, 0x01)])).input =
      [input_report_abs AbsAxis.ABS_X 0x1234, input_report_abs AbsAxis.ABS_Y 0x0001,
       input_report_abs AbsAxis.ABS_Z 0x0000, input_sync] ∧
    (decode_mgc313X_data emptyPriv
        (fun i => memOf [(0, 8), (4, 0x10), (8, 0x34), (9, 0x12), (10, 0x01)] (i + 1))
        7).reads = [3, 4, 6, 8, 7, 10, 9, 12, 11] ∧
    (∃ i ∈ (decode_mgc313X_data emptyPriv
        (fun i => memOf [(0, 8), (4, 0x10), (8, 0x34), (9, 0x12), (10, 0x01)] (i + 1))
        7).reads, (7 : Int) ≤ (i : Int)) ∧
    (decode_mgc313X_data emptyPriv
        (fun i => memOf [(0, 8), (4, 0x10), (8, 0x34), (9, 0x12), (10, 0x01)] (i + 1))
        7).input =
      [input_report_abs AbsAxis.ABS_X 0x1234, input_report_abs AbsAxis.ABS_Y 0x0001,
       input_report_abs AbsAxis.ABS_Z 0x0000, input_sync] := by
  decide

/-- C7: for a message carrying a gesture word (mask bit 1 set), the decoder
calls `send_input` at most once, and it calls it exactly when the class field
is `1` and the type field is one of 0, 2, 3, 4, 5, 6, 7; the argument is then
`air_hover_hold` (0), `air_swipe_right` (2), `air_swipe_left` (3),
`air_swipe_up` (4), `air_swipe_down` (5), `air_circle_clock` (6) or
`air_circle_counterclock` (7).  A class other than `1` gives no call for any
type, and types 1 and 8..15 give no call even with class `1`. -/
theorem gesture_dispatch (priv : mchp_3d_i2c_priv) (data : Mem) (size : Int)
    (hbit : (maskOf data).testBit 1 = true) :
    (decode_mgc313X_data priv data size).dispatched.length ≤ 1 ∧
    ((decode_mgc313X_data priv data size).dispatched ≠ [] ↔
      le32 data (7 + 2 * ((maskOf data).testBit 0).toNat) / 2 ^ 12 % 2 ^ 4 = 1 ∧
        le32 data (7 + 2 * ((maskOf data).testBit 0).toNat) % 2 ^ 4 ∈ [0, 2, 3, 4, 5, 6, 7]) ∧
    (le32 data (7 + 2 * ((maskOf data).testBit 0).toNat) / 2 ^ 12 % 2 ^ 4 = 1 →
      (le32 data (7 + 2 * ((maskOf data).testBit 0).toNat) % 2 ^ 4 = 0 →
        (decode_mgc313X_data priv data size).dispatched = [priv.air_hover_hold]) ∧
      (le32 data (7 + 2 * ((maskOf data).testBit 0).toNat) % 2 ^ 4 = 2 →
        (decode_mgc313X_data priv data size).dispatched = [priv.air_swipe_right]) ∧
      (le32 data (7 + 2 * ((maskOf data).testBit 0).toNat) % 2 ^ 4 = 3 →
        (decode_mgc313X_data priv data size).dispatched = [priv.air_swipe_left]) ∧
      (le32 data (7 + 2 * ((maskOf data).testBit 0).toNat) % 2 ^ 4 = 4 →
        (decode_mgc313X_data priv data size).dispatched = [priv.air_swipe_up]) ∧
      (le32 data (7 + 2 * ((maskOf data).testBit 0).toNat) % 2 ^ 4 = 5 →
        (decode_mgc313X_data priv data size).dispatched = [priv.air_swipe_down]) ∧
      (le32 data (7 + 2 * ((maskOf data).testBit 0).toNat) % 2 ^ 4 = 6 →
        (decode_mgc313X_data priv data size).dispatched = [priv.air_circle_clock]) ∧
      (le32 data (7 + 2 * ((maskOf data).testBit 0).toNat) % 2 ^ 4 = 7 →
        (decode_mgc313X_data priv data size).dispatched = [priv.air_circle_counterclock])) ∧
    (le32 data (7 + 2 * ((maskOf data).testBit 0).toNat) / 2 ^ 12 % 2 ^ 4 ≠ 1 →
      (decode_mgc313X_data priv data size).dispatched = []) ∧
    (le32 data (7 + 2 * ((maskOf data).testBit 0).toNat) % 2 ^ 4 = 1 ∨
        8 ≤ le32 data (7 + 2 * ((maskOf data).testBit 0).toNat) % 2 ^ 4 →
      (decode_mgc313X_data priv data size).dispatched = []) := by
  rw [decode_dispatched priv data size hbit]
  have hty : le32 data (7 + 2 * ((maskOf data).testBit 0).toNat) % 2 ^ 4 < 16 :=
    Nat.mod_lt _ (by norm_num)
  generalize le32 data (7 + 2 * ((maskOf data).testBit 0).toNat) % 2 ^ 4 = ty at hty
  have e12 : (2 : Nat) ^ 12 = 4096 := by norm_num
  have e4 : (2 : Nat) ^ 4 = 16 := by norm_num
  rw [e12, e4]
  generalize le32 data (7 + 2 * ((maskOf data).testBit 0).toNat) / 4096 % 16 = cl
  by_cases hcl : cl = 1
  · subst hcl
    interval_cases ty <;> simp [gestureSwitch]
  · simp only [hcl, if_false]
    simp

/-- Witness for C7: class 1, type 2 gives the swipe-right
code. -/
theorem gesture_dispatch_witness :
    (maskOf (memOf [(3, 0x02), (7, 0x12), (8, 0x10)])).testBit 1 = true ∧
    (decode_mgc313X_data emptyPriv (memOf [(3, 0x02), (7, 0x12), (8, 0x10)]) 11).dispatched
      = [emptyPriv.air_swipe_right] :=
  ⟨by decide,
    (gesture_dispatch emptyPriv (memOf [(3, 0x02), (7, 0x12), (8, 0x10)]) 11
      (by decide)).2.2.1 (by decide) |>.2.1 (by decide)⟩

/-! ## Input events: theorems -/

/-- C9: in a pass that obtained its buffer, when the declared length (first
received byte) exceeds `i2c_read_buffer_size` the function issues exactly one
further receive, of length `declared_len - i2c_read_buffer_size`, never calls
the decoder and emits no input event; otherwise it issues no second receive
and calls the decoder exactly once, on the bytes after the length byte with
`size = declared_len - 1`, and emits what that call emits. -/
theorem readdata_oversize (priv : mchp_3d_i2c_priv) (payload_buf : Mem) :
    (mgc313x_i2c_readdata priv true payload_buf).recv =
      (if ((payload_buf 0).val : Int) > priv.i2c_read_buffer_size then
        [priv.i2c_read_buffer_size, ((payload_buf 0).val : Int) - priv.i2c_read_buffer_size]
      else [priv.i2c_read_buffer_size]) ∧
    (mgc313x_i2c_readdata priv true payload_buf).decoded =
      (if ((payload_buf 0).val : Int) > priv.i2c_read_buffer_size then []
      else [(fun i => payload_buf (i + 1), ((payload_buf 0).val : Int) - 1)]) ∧
    (mgc313x_i2c_readdata priv true payload_buf).input =
      (if ((payload_buf 0).val : Int) > priv.i2c_read_buffer_size then []
      else (decode_mgc313X_data priv (fun i => payload_buf (i + 1))
        (((payload_buf 0).val : Int) - 1)).input) := by
  unfold mgc313x_i2c_readdata
  by_cases h : ((payload_buf 0).val : Int) > priv.i2c_read_buffer_size
  · have h2 : ((payload_buf 0).val : Int) - priv.i2c_read_buffer_size > 0 := by omega
    simp [h, h2]
  · simp [h]

/-! ## Firmware handshake: lemmas -/

theorem probeLoopBody_calls (resp : Nat → Mem) (s : ProbeState) :
    (probeLoopBody resp s).loopcount ≤ s.loopcount - 1 ∨
      (probeLoopBody resp s).loopcount = -1 := by
  unfold probeLoopBody
  by_cases h : s.msg_size ≠ 0x00
  · left; simp [h]
  · right; simp [h]

theorem probeLoopBody_extra (resp : Nat → Mem) (s : ProbeState) :
    ∃ extra, (probeLoopBody resp s).calls = s.calls ++ extra ∧
      ∀ c ∈ extra, isRecvOrLog c = true := by
  unfold probeLoopBody
  by_cases h : s.msg_size ≠ 0x00
  · refine ⟨(classify s.fw_buffer).map ProbeCall.printk
        ++ [ProbeCall.i2c_master_recv buf_size], ?_, ?_⟩
    · simp [h]
    · intro c hc
      simp only [List.mem_append, List.mem_map, List.mem_singleton] at hc
      rcases hc with ⟨l, _, rfl⟩ | rfl <;> rfl
  · exact ⟨[], by simp [h], by simp⟩

/-- The loop ends within `fuel` passes when `loopcount ≤ fuel`, having added
only receives and `printk` lines. -/
theorem probeLoop_ends (resp : Nat → Mem) :
    ∀ (fuel : Nat) (s : ProbeState), s.loopcount ≤ (fuel : Int) →
      ∃ s2 extra, probeLoop resp fuel s = some s2 ∧ s2.calls = s.calls ++ extra ∧
        ∀ c ∈ extra, isRecvOrLog c = true := by
  intro fuel
  induction fuel with
  | zero =>
    intro s hs
    refine ⟨s, [], ?_, by simp, by simp⟩
    have : ¬ s.loopcount > 0 := by simpa using hs
    simp [probeLoop, this]
  | succ fuel ih =>
    intro s hs
    by_cases hpos : s.loopcount > 0
    · have hle : (probeLoopBody resp s).loopcount ≤ (fuel : Int) := by
        rcases probeLoopBody_calls resp s with h | h
        · push_cast at hs; omega
        · omega
      obtain ⟨s2, extra2, hrun, hcalls, hq⟩ := ih (probeLoopBody resp s) hle
      obtain ⟨extra1, hcalls1, hq1⟩ := probeLoopBody_extra resp s
      refine ⟨s2, extra1 ++ extra2, ?_, ?_, ?_⟩
      · simp [probeLoop, hpos, hrun]
      · rw [hcalls, hcalls1, List.append_assoc]
      · intro c hc
        rcases List.mem_append.mp hc with h | h
        · exact hq1 c h
        · exact hq c h
    · exact ⟨s, [], by simp [probeLoop, hpos], by simp, by simp⟩

theorem sentCommands_quiet (extra : List ProbeCall)
    (h : ∀ c ∈ extra, isRecvOrLog c = true) :
    sentCommands extra = [] ∧ ProbeCall.enable_irq ∉ extra := by
  induction extra with
  | nil => simp [sentCommands]
  | cons c cs ih =>
    have hc := h c (List.mem_cons_self c cs)
    obtain ⟨h1, h2⟩ := ih (fun d hd => h d (List.mem_cons_of_mem c hd))
    unfold sentCommands at h1 ⊢
    cases c <;> simp_all [isRecvOrLog]

/-! ## Firmware handshake: theorems -/

/-- C10: for every sequence of transport responses the handshake ends (five
loop passes always suffice), and the commands it sends are exactly, in order,
disable-outputs, firmware-version-request and enable-outputs; its last calls
are `enable_irq` and the enable-outputs send, `enable_irq` is called nowhere
before, and nothing follows the final send but its log line.  No response
content changes this. -/
theorem handshake_commands (resp : Nat → Mem) (fuel : Nat) (hfuel : 5 ≤ fuel) :
    ∃ calls before,
      mchp_3d_i2c_probe resp fuel = some calls ∧
      sentCommands calls =
        [setGestIDFlags_Disable, setGestIDFlags_Req_FwVersion, setGestIDFlags_Enable] ∧
      calls = before ++
        [ProbeCall.enable_irq, ProbeCall.printk ProbeLog.enableIrq,
         ProbeCall.i2c_master_send setGestIDFlags_Enable,
         ProbeCall.printk ProbeLog.enableOutputs] ∧
      ProbeCall.enable_irq ∉ before := by
  obtain ⟨s2, extra, hrun, hcalls, hq⟩ := probeLoop_ends resp fuel (probeStart resp)
    (by simp only [probeStart]; omega)
  obtain ⟨hs, hirq⟩ := sentCommands_quiet extra hq
  refine ⟨_, s2.calls, ?_, ?_, rfl, ?_⟩
  · simp only [mchp_3d_i2c_probe, hrun]
  · rw [hcalls]
    unfold sentCommands at hs ⊢
    simp only [List.filterMap_append, hs]
    rfl
  · rw [hcalls]
    simp [hirq, probeStart]

/-- Witness for C10: every response is a version response
reporting an invalid firmware. -/
theorem handshake_commands_witness :
    5 ≤ 5 ∧
    ∃ calls before,
      mchp_3d_i2c_probe (fun _ => memOf [(0, 5), (3, 0x83), (4, 0x0A)]) 5 = some calls ∧
      sentCommands calls =
        [setGestIDFlags_Disable, setGestIDFlags_Req_FwVersion, setGestIDFlags_Enable] ∧
      calls = before ++
        [ProbeCall.enable_irq, ProbeCall.printk ProbeLog.enableIrq,
         ProbeCall.i2c_master_send setGestIDFlags_Enable,
         ProbeCall.printk ProbeLog.enableOutputs] ∧
      ProbeCall.enable_irq ∉ before :=
  ⟨Nat.le_refl 5,
    handshake_commands (fun _ => memOf [(0, 5), (3, 0x83), (4, 0x0A)]) 5 (Nat.le_refl 5)⟩

/-! ## Firmware handshake: retry budget -/

theorem probeLoop_done (resp : Nat → Mem) (fuel : Nat) (s : ProbeState)
    (h : ¬ s.loopcount > 0) : probeLoop resp fuel s = some s := by
  cases fuel <;> simp [probeLoop, h]

theorem probeLoop_step (resp : Nat → Mem) (fuel : Nat) (s : ProbeState)
    (h : s.loopcount > 0) :
    probeLoop resp (fuel + 1) s = probeLoop resp fuel (probeLoopBody resp s) := by
  simp [probeLoop, h]

/-- More fuel does not change a result already reached. -/
theorem probeLoop_mono (resp : Nat → Mem) :
    ∀ (fuel fuel2 : Nat) (s s2 : ProbeState), fuel ≤ fuel2 →
      probeLoop resp fuel s = some s2 → probeLoop resp fuel2 s = some s2 := by
  intro fuel
  induction fuel with
  | zero =>
    intro fuel2 s s2 _ h
    by_cases hpos : s.loopcount > 0
    · simp [probeLoop, hpos] at h
    · rw [probeLoop_done resp 0 s hpos] at h
      rw [probeLoop_done resp fuel2 s hpos]
      exact h
  | succ fuel ih =>
    intro fuel2 s s2 hle h
    by_cases hpos : s.loopcount > 0
    · obtain ⟨m, rfl⟩ : ∃ m, fuel2 = m + 1 := ⟨fuel2 - 1, by omega⟩
      rw [probeLoop_step resp fuel s hpos] at h
      rw [probeLoop_step resp m s hpos]
      exact ih m _ s2 (by omega) h
    · rw [probeLoop_done resp _ s hpos] at h
      rw [probeLoop_done resp fuel2 s hpos]
      exact h

theorem probeStart_inv (resp : Nat → Mem) : ProbeInv resp (probeStart resp) := by
  simp [ProbeInv, probeStart, isRecv]

theorem probeLoopBody_inv (resp : Nat → Mem) (s : ProbeState)
    (hinv : ProbeInv resp s) (hpos : s.loopcount > 0) :
    ProbeInv resp (probeLoopBody resp s) := by
  obtain ⟨hfw, hms, hrec, hcl, hnz, hcnt, hle5, hlc⟩ := hinv
  have hlen : s.loopcount = 5 - (s.classified.length : Int) := by
    rcases hlc with h | ⟨h, _, _⟩
    · exact h
    · omega
  unfold probeLoopBody
  by_cases hm : s.msg_size ≠ 0x00
  · have hfilter : ∀ l : List ProbeLog, (l.map ProbeCall.printk).filter isRecv = [] := by
      intro l
      induction l with
      | nil => rfl
      | cons a l ih => simp [isRecv]
    have hnz2 : (resp (s.received - 1) 0).val ≠ 0 := by
      intro h0
      apply hm
      rw [hms, h0]
      rfl
    rw [if_pos hm]
    refine ⟨by simp, by simp, by simp [hrec], ?_, ?_, ?_, ?_, ?_⟩
    · simp only [List.length_append, List.length_singleton]
      rw [List.range_succ, ← hcl, hrec]
      simp
    · intro k hk
      simp only [List.length_append, List.length_singleton] at hk
      by_cases hk2 : k < s.classified.length
      · exact hnz k hk2
      · have : k = s.received - 1 := by omega
        rw [this]
        exact hnz2
    · simp only [List.filter_append, hfilter, List.length_append, hcnt]
      simp [isRecv]
    · simp only [List.length_append, List.length_singleton]
      omega
    · left
      simp only [List.length_append, List.length_singleton]
      push_cast
      omega
  · have hm0 : s.msg_size = 0 := by
      by_contra h
      exact hm h
    have hz : (resp (s.received - 1) 0).val = 0 := by
      rw [hms] at hm0
      exact_mod_cast hm0
    rw [if_neg hm]
    refine ⟨hfw, hms, hrec, hcl, hnz, hcnt, hle5, ?_⟩
    right
    refine ⟨rfl, hz, ?_⟩
    show s.classified.length < 5
    omega

/-- The loop keeps the consistency with `resp`. -/
theorem probeLoop_inv (resp : Nat → Mem) :
    ∀ (fuel : Nat) (s s2 : ProbeState), ProbeInv resp s →
      probeLoop resp fuel s = some s2 → ProbeInv resp s2 ∧ ¬ s2.loopcount > 0 := by
  intro fuel
  induction fuel with
  | zero =>
    intro s s2 hinv h
    by_cases hpos : s.loopcount > 0
    · simp [probeLoop, hpos] at h
    · rw [probeLoop_done resp 0 s hpos] at h
      cases h
      exact ⟨hinv, hpos⟩
  | succ fuel ih =>
    intro s s2 hinv h
    by_cases hpos : s.loopcount > 0
    · rw [probeLoop_step resp fuel s hpos] at h
      exact ih _ s2 (probeLoopBody_inv resp s hinv hpos) h
    · rw [probeLoop_done resp _ s hpos] at h
      cases h
      exact ⟨hinv, hpos⟩

/-- With every response a version response of status `InvalidFw` and nonzero
declared length, the loop makes five passes, each logging the two lines of the
diagnosis and receiving once more. -/
theorem probeLoop_invalid_fw (resp : Nat → Mem)
    (hver : ∀ k, (resp k 3).val = 0x83) (hst : ∀ k, (resp k 4).val = InvalidFw)
    (hlen : ∀ k, (resp k 0).val ≠ 0) :
    probeLoop resp 5 (probeStart resp) = some
      { fw_buffer := resp 5
        msg_size := ((resp 5 0).val : Int)
        loopcount := 0
        received := 6
        calls :=
          [ProbeCall.i2c_master_send setGestIDFlags_Disable,
           ProbeCall.printk ProbeLog.disableOutputs,
           ProbeCall.i2c_master_send setGestIDFlags_Req_FwVersion,
           ProbeCall.printk ProbeLog.requestFwVersion,
           ProbeCall.i2c_master_recv buf_size,
           ProbeCall.printk ProbeLog.noCompleteImage, ProbeCall.printk ProbeLog.reloadFirmware,
           ProbeCall.i2c_master_recv buf_size,
           ProbeCall.printk ProbeLog.noCompleteImage, ProbeCall.printk ProbeLog.reloadFirmware,
           ProbeCall.i2c_master_recv buf_size,
           ProbeCall.printk ProbeLog.noCompleteImage, ProbeCall.printk ProbeLog.reloadFirmware,
           ProbeCall.i2c_master_recv buf_size,
           ProbeCall.printk ProbeLog.noCompleteImage, ProbeCall.printk ProbeLog.reloadFirmware,
           ProbeCall.i2c_master_recv buf_size,
           ProbeCall.printk ProbeLog.noCompleteImage, ProbeCall.printk ProbeLog.reloadFirmware,
           ProbeCall.i2c_master_recv buf_size]
        classified := [0, 1, 2, 3, 4] } := by
  have hmsg : ∀ k, ((resp k 0).val : Int) ≠ 0 := by
    intro k h
    exact hlen k (by exact_mod_cast h)
  simp [probeLoop, probeLoopBody, probeStart, classify, hver, hst, hmsg]

/-! ## Firmware handshake: theorems on the retry budget -/

/-- C11: when every response is a version response (byte 3 is `0x83`) with
status byte 4 equal to `InvalidFw` and a nonzero declared length, the handshake
logs the no-valid-firmware diagnosis (its two `printk` lines) exactly 5 times,
once for each of the five responses it classifies, and then makes its terminal
calls: `enable_irq` and the enable-outputs send. -/
theorem handshake_invalid_fw (resp : Nat → Mem) (fuel : Nat) (hfuel : 5 ≤ fuel)
    (hver : ∀ k, (resp k 3).val = 0x83) (hst : ∀ k, (resp k 4).val = InvalidFw)
    (hlen : ∀ k, (resp k 0).val ≠ 0) :
    ∃ calls before,
      mchp_3d_i2c_probe resp fuel = some calls ∧
      calls.count (ProbeCall.printk ProbeLog.noCompleteImage) = 5 ∧
      calls.count (ProbeCall.printk ProbeLog.reloadFirmware) = 5 ∧
      (probeLoop resp fuel (probeStart resp)).map (fun s => s.classified)
        = some [0, 1, 2, 3, 4] ∧
      calls = before ++
        [ProbeCall.enable_irq, ProbeCall.printk ProbeLog.enableIrq,
         ProbeCall.i2c_master_send setGestIDFlags_Enable,
         ProbeCall.printk ProbeLog.enableOutputs] := by
  have h5 := probeLoop_invalid_fw resp hver hst hlen
  have hrun := probeLoop_mono resp 5 fuel _ _ hfuel h5
  obtain ⟨s, hs, hc1, hc2, hcl⟩ : ∃ s, probeLoop resp fuel (probeStart resp) = some s ∧
      s.calls.count (ProbeCall.printk ProbeLog.noCompleteImage) = 5 ∧
      s.calls.count (ProbeCall.printk ProbeLog.reloadFirmware) = 5 ∧
      s.classified = [0, 1, 2, 3, 4] :=
    ⟨_, hrun, by dsimp only; decide, by dsimp only; decide, rfl⟩
  refine ⟨s.calls ++
      [ProbeCall.enable_irq, ProbeCall.printk ProbeLog.enableIrq,
       ProbeCall.i2c_master_send setGestIDFlags_Enable,
       ProbeCall.printk ProbeLog.enableOutputs], s.calls, ?_, ?_, ?_, ?_, rfl⟩
  · simp only [mchp_3d_i2c_probe, hs]
  · rw [List.count_append, hc1]
    decide
  · rw [List.count_append, hc2]
    decide
  · rw [hs, Option.map_some', hcl]

/-- Witness for C11: every response is `[5, 0, 0, 0x83, 0x0A, 0, ...]`. -/
theorem handshake_invalid_fw_witness :
    5 ≤ 7 ∧
    (∀ k : Nat, ((fun _ => memOf [(0, 5), (3, 0x83), (4, 0x0A)] : Nat → Mem) k 3).val = 0x83) ∧
    ∃ calls before,
      mchp_3d_i2c_probe (fun _ => memOf [(0, 5), (3, 0x83), (4, 0x0A)]) 7 = some calls ∧
      calls.count (ProbeCall.printk ProbeLog.noCompleteImage) = 5 ∧
      calls.count (ProbeCall.printk ProbeLog.reloadFirmware) = 5 ∧
      (probeLoop (fun _ => memOf [(0, 5), (3, 0x83), (4, 0x0A)]) 7
          (probeStart (fun _ => memOf [(0, 5), (3, 0x83), (4, 0x0A)]))).map
        (fun s => s.classified) = some [0, 1, 2, 3, 4] ∧
      calls = before ++
        [ProbeCall.enable_irq, ProbeCall.printk ProbeLog.enableIrq,
         ProbeCall.i2c_master_send setGestIDFlags_Enable,
         ProbeCall.printk ProbeLog.enableOutputs] :=
  ⟨by decide, fun _ => rfl,
    handshake_invalid_fw (fun _ => memOf [(0, 5), (3, 0x83), (4, 0x0A)]) 7 (by decide)
      (fun _ => rfl) (fun _ => rfl) (fun _ => by dsimp only; decide)⟩

/-- C12 fails on the code: with every response of nonzero declared length the
handshake receives six responses (numbers 0 to 5) and classifies only numbers
0 to 4, so the last response received is never classified; and a first
response of declared length zero is received and not classified either. -/
theorem handshake_unclassified_response :
    (probeLoop (fun _ => memOf [(0, 5), (3, 0x83), (4, 0x0A)]) 5
        (probeStart (fun _ => memOf [(0, 5), (3, 0x83), (4, 0x0A)]))).map
      (fun s => (s.received, s.classified)) = some (6, [0, 1, 2, 3, 4]) ∧
    (probeLoop (fun _ => memOf [(0, 0), (3, 0x83), (4, 0xAA)]) 5
        (probeStart (fun _ => memOf [(0, 0), (3, 0x83), (4, 0xAA)]))).map
      (fun s => (s.received, s.classified)) = some (1, []) := by
  decide

/-- C12 as amended: the handshake receives one response and then one more
after each classification, at most 5 more; a received response is classified
exactly when its declared length is nonzero and fewer than 5 responses were
classified before it, so the last response received is not classified; and no
receive is issued after a response whose declared length is zero. -/
theorem handshake_receives (resp : Nat → Mem) (fuel : Nat) (hfuel : 5 ≤ fuel) :
    ∃ s, probeLoop resp fuel (probeStart resp) = some s ∧
      (s.calls.filter isRecv).length = s.received ∧
      s.received = s.classified.length + 1 ∧
      s.received ≤ 6 ∧
      s.classified = List.range (s.received - 1) ∧
      (∀ k, k < s.received → (k ∈ s.classified ↔ (resp k 0).val ≠ 0 ∧ k < 5)) ∧
      (∀ k, k < s.received → (resp k 0).val = 0 → k + 1 = s.received) := by
  obtain ⟨s, _, hrun, _, _⟩ := probeLoop_ends resp fuel (probeStart resp)
    (by simp only [probeStart]; omega)
  obtain ⟨⟨_, _, hrec, hcl, hnz, hcnt, hle5, hlc⟩, hexit⟩ :=
    probeLoop_inv resp fuel _ s (probeStart_inv resp) hrun
  have hmem : ∀ k, k ∈ s.classified ↔ k < s.classified.length := by
    intro k
    rw [hcl, List.mem_range, List.length_range]
  have hlast : s.classified.length = 5 ∨ (resp (s.received - 1) 0).val = 0 := by
    rcases hlc with h | ⟨_, h, _⟩
    · left; omega
    · right; exact h
  refine ⟨s, hrun, hcnt, hrec, by omega, ?_, ?_, ?_⟩
  · rw [hrec]
    simpa using hcl
  · intro k hk
    rw [hmem]
    constructor
    · intro h
      exact ⟨hnz k h, by omega⟩
    · rintro ⟨h0, h5⟩
      by_contra hge
      have hk2 : k = s.received - 1 := by omega
      rcases hlast with h | h
      · omega
      · exact h0 (hk2 ▸ h)
  · intro k hk h0
    by_contra hne
    exact hnz k (by omega) h0

/-- Witness for C12 as amended: every response has declared length 5. -/
theorem handshake_receives_witness :
    5 ≤ 5 ∧
    ∃ s, probeLoop (fun _ => memOf [(0, 5)]) 5 (probeStart (fun _ => memOf [(0, 5)])) = some s ∧
      (s.calls.filter isRecv).length = s.received ∧
      s.received = s.classified.length + 1 ∧
      s.received ≤ 6 ∧
      s.classified = List.range (s.received - 1) ∧
      (∀ k, k < s.received →
        (k ∈ s.classified ↔
          ((fun _ => memOf [(0, 5)] : Nat → Mem) k 0).val ≠ 0 ∧ k < 5)) ∧
      (∀ k, k < s.received →
        ((fun _ => memOf [(0, 5)] : Nat → Mem) k 0).val = 0 → k + 1 = s.received) :=
  ⟨Nat.le_refl 5, handshake_receives (fun _ => memOf [(0, 5)]) 5 (Nat.le_refl 5)⟩

/-! ## Control surface: theorems on `send_buffer` and the command constants -/

/-- C13: a control write of at most 256 bytes whose byte 0 is `0xFE` and whose
byte 1 (payload length) is `0` sets `isReadingStreamBuffer` to 1, makes no call
into the I2C core (no send, no receive), leaves every other field of the
device record (mapping, `rx_len`, `stream_buffer_size`, ring buffer) as it was
and returns `count`. -/
theorem send_buffer_streaming (priv : mchp_3d_i2c_priv) (buf : Mem) (count : Nat)
    (hcount : count ≤ 256) (h0 : (buf 0).val = 0xFE) (h1 : (buf 1).val = 0) :
    send_buffer_store priv (some buf) count =
      { priv := { priv with isReadingStreamBuffer := 1 }, calls := [], ret := (count : Int) } := by
  have hc : ¬ count > 256 := by omega
  simp [send_buffer_store, hc, h0, h1]

/-- Witness for C13: the two-byte write `[0xFE, 0x00]`. -/
theorem send_buffer_streaming_witness :
    2 ≤ 256 ∧ ((memOf [(0, 0xFE), (1, 0x00)]) 0).val = 0xFE ∧
    ((memOf [(0, 0xFE), (1, 0x00)]) 1).val = 0 ∧
    send_buffer_store emptyPriv (some (memOf [(0, 0xFE), (1, 0x00)])) 2 =
      { priv := { emptyPriv with isReadingStreamBuffer := 1 }, calls := [], ret := ((2 : Nat) : Int) } :=
  ⟨by decide, by decide, by decide,
    send_buffer_streaming emptyPriv (memOf [(0, 0xFE), (1, 0x00)]) 2 (by decide) (by decide)
      (by decide)⟩

/-- C16 fails on the code: byte 8 of the enable-outputs command is `0x0A`, in
which the 3D-position flag (bit 4) is clear, so the three flags are not all
set. -/
theorem enable_position_flag_clear :
    ¬ ((setGestIDFlags_Enable.getD 8 0).val.testBit 1 = true ∧
       (setGestIDFlags_Enable.getD 8 0).val.testBit 4 = true ∧
       (setGestIDFlags_Enable.getD 8 0).val.testBit 3 = true) := by
  decide

/-- C16 as amended: the enable-outputs command is a 16-byte sequence whose
output-flag byte (byte 8) is `0x0A`, that is, the gesture flag (bit 1) and the
air-wheel flag (bit 3) are set and the 3D-position flag (bit 4) is clear; the
disable-outputs command is the 16-byte sequence that differs from it only in
that byte, which is 0. -/
theorem enable_disable_commands :
    setGestIDFlags_Enable.length = 16 ∧
    setGestIDFlags_Disable.length = 16 ∧
    setGestIDFlags_Enable.getD 8 0 = 0x0A ∧
    (setGestIDFlags_Enable.getD 8 0).val.testBit 1 = true ∧
    (setGestIDFlags_Enable.getD 8 0).val.testBit 3 = true ∧
    (setGestIDFlags_Enable.getD 8 0).val.testBit 4 = false ∧
    setGestIDFlags_Disable.getD 8 0 = 0 ∧
    setGestIDFlags_Disable = setGestIDFlags_Enable.set 8 0 := by
  decide

/-! ## Control surface: the drain loop -/

theorem bufferRead_frame (priv : mchp_3d_i2c_priv) (byte : Byte) :
    (bufferRead priv byte).2.1.rx_len = priv.rx_len ∧
    (bufferRead priv byte).2.1.stream_buffer_size = priv.stream_buffer_size ∧
    (bufferRead priv byte).2.1.isReadingStreamBuffer = priv.isReadingStreamBuffer ∧
    (bufferRead priv byte).2.1.rx_buf = priv.rx_buf := by
  unfold bufferRead
  split <;> simp

theorem drainLoop_empty (fuel : Nat) (s : DrainState)
    (h : bufferRead s.priv s.byte_from_buffer = (BUFFER_EMPTY, s.priv, s.byte_from_buffer)) :
    drainLoop (fuel + 1) s = some s := by
  rw [drainLoop, h]

theorem drainLoop_ok (fuel : Nat) (s : DrainState)
    (h : (bufferRead s.priv s.byte_from_buffer).1 = BUFFER_OK) :
    drainLoop (fuel + 1) s =
      if s.i + 1 = s.priv.rx_len then some (drainBody s) else drainLoop fuel (drainBody s) := by
  rw [drainLoop, ← (bufferRead_frame s.priv s.byte_from_buffer).1]
  unfold drainBody
  generalize bufferRead s.priv s.byte_from_buffer = r at h
  obtain ⟨st, p, y⟩ := r
  simp only at h
  subst h
  rfl

theorem drainBody_facts (s : DrainState) :
    (drainBody s).priv.circularBuffer = (bufferRead s.priv s.byte_from_buffer).2.1.circularBuffer ∧
    (drainBody s).priv.rx_len = s.priv.rx_len ∧
    (drainBody s).priv.stream_buffer_size = s.priv.stream_buffer_size ∧
    (drainBody s).priv.isReadingStreamBuffer = s.priv.isReadingStreamBuffer ∧
    (drainBody s).i = s.i + 1 ∧
    (drainBody s).written = s.written ++ [s.i] := by
  obtain ⟨h1, h2, h3, _⟩ := bufferRead_frame s.priv s.byte_from_buffer
  exact ⟨rfl, h1, h2, h3, rfl, rfl⟩

theorem drainBody_rx_buf (s : DrainState) (hi : 0 ≤ s.i) :
    (drainBody s).priv.rx_buf s.i.toNat = (bufferRead s.priv s.byte_from_buffer).2.2 ∧
    ∀ k : Nat, (k : Int) < s.i → (drainBody s).priv.rx_buf k = s.priv.rx_buf k := by
  obtain ⟨_, _, _, h4⟩ := bufferRead_frame s.priv s.byte_from_buffer
  refine ⟨?_, ?_⟩
  · simp [drainBody, Int.toNat_of_nonneg hi]
  · intro k hk
    have hne : ¬ (k : Int) = s.i := by omega
    simp [drainBody, hne, h4]

theorem pending_congr (p q : mchp_3d_i2c_priv) (h : p.circularBuffer = q.circularBuffer) :
    pending p = pending q ∧ resident p = resident q ∧ (IndicesInRange p ↔ IndicesInRange q) := by
  simp [pending, resident, IndicesInRange, h]

/-- The drain loop, started with in-range indices and `0 ≤ i`, ends within
`resident + 1` evaluations of its condition.  It moves the `n` oldest bytes, in
order, to `rx_buf[i] .. rx_buf[i+n-1]`, where either `n` is all that was
resident or the counter reached `rx_len` for the first time after `n` bytes. -/
theorem drainLoop_spec :
    ∀ (fuel : Nat) (s : DrainState), IndicesInRange s.priv → 0 ≤ s.i →
      resident s.priv < fuel →
      ∃ s2 n, drainLoop fuel s = some s2 ∧
        resident s2.priv + n = resident s.priv ∧
        s2.i = s.i + (n : Int) ∧
        IndicesInRange s2.priv ∧
        pending s.priv =
          (List.range n).map (fun j => s2.priv.rx_buf (s.i.toNat + j)) ++ pending s2.priv ∧
        (∀ k : Nat, (k : Int) < s.i → s2.priv.rx_buf k = s.priv.rx_buf k) ∧
        s2.written = s.written ++ (List.range n).map (fun (j : Nat) => s.i + (j : Int)) ∧
        s2.priv.rx_len = s.priv.rx_len ∧
        s2.priv.stream_buffer_size = s.priv.stream_buffer_size ∧
        s2.priv.isReadingStreamBuffer = s.priv.isReadingStreamBuffer ∧
        (n = resident s.priv ∨ (0 < n ∧ s.i + (n : Int) = s.priv.rx_len)) ∧
        (∀ m : Nat, 0 < m → m < n → s.i + (m : Int) ≠ s.priv.rx_len) := by
  intro fuel
  induction fuel with
  | zero => intro s _ _ h; omega
  | succ fuel ih =>
    intro s hin hi hfuel
    rcases bufferRead_step s.priv s.byte_from_buffer hin with
      ⟨hres0, hempty⟩ | ⟨hpos, hok, hin1, hres1, hpend⟩
    · refine ⟨s, 0, drainLoop_empty fuel s hempty, by omega, by simp, hin, by simp,
        fun _ _ => rfl, by simp, rfl, rfl, rfl, Or.inl hres0.symm, ?_⟩
      intro m h1 h2
      omega
    · obtain ⟨hcb, hlen, hsz, hmode, hbi, hbw⟩ := drainBody_facts s
      obtain ⟨hpeq, hreq, hineq⟩ := pending_congr _ _ hcb
      obtain ⟨hstore, hkeep⟩ := drainBody_rx_buf s hi
      have hnat : (s.i + 1).toNat = s.i.toNat + 1 := by omega
      by_cases hbreak : s.i + 1 = s.priv.rx_len
      · refine ⟨drainBody s, 1, ?_, ?_, ?_, hineq.mpr hin1, ?_, hkeep, ?_, hlen, hsz, hmode,
          Or.inr ⟨by omega, by push_cast; exact hbreak⟩, ?_⟩
        · rw [drainLoop_ok fuel s hok, if_pos hbreak]
        · rw [hreq]; omega
        · rw [hbi]; simp
        · rw [hpend, hpeq]
          simp [List.range_succ, hstore]
        · rw [hbw]; simp [List.range_succ]
        · intro m h1 h2
          omega
      · have hin2 : IndicesInRange (drainBody s).priv := hineq.mpr hin1
        obtain ⟨s2, n, hrun, hr, hi2, hinf, hp, hk, hw, hl, hz, hm, hn, hfirst⟩ :=
          ih (drainBody s) hin2 (by rw [hbi]; omega) (by rw [hreq]; omega)
        refine ⟨s2, n + 1, ?_, ?_, ?_, hinf, ?_, ?_, ?_, hl.trans hlen, hz.trans hsz,
          hm.trans hmode, ?_, ?_⟩
        · rw [drainLoop_ok fuel s hok, if_neg hbreak]
          exact hrun
        · rw [hreq] at hr; omega
        · rw [hi2, hbi]; push_cast; omega
        · rw [hpend, ← hpeq, hp, List.range_succ_eq_map, List.map_cons, List.map_map,
            List.cons_append]
          congr 1
          · rw [Nat.add_zero, hk s.i.toNat (by rw [hbi]; omega), hstore]
          · congr 1
            apply List.map_congr_left
            intro j _
            simp only [Function.comp, hbi, hnat]
            congr 1
            omega
        · intro k hlt
          rw [hk k (by rw [hbi]; omega)]
          exact hkeep k hlt
        · rw [hw, hbw, hbi, List.range_succ_eq_map, List.map_cons, List.map_map,
            List.append_assoc]
          congr 1
          simp only [List.singleton_append, Nat.cast_zero, add_zero, List.cons.injEq, true_and]
          apply List.map_congr_left
          intro j _
          simp only [Function.comp]
          push_cast
          omega
        · rcases hn with h | ⟨h1, h2⟩
          · left; rw [hreq] at h; omega
          · right
            refine ⟨by omega, ?_⟩
            rw [hbi, hlen] at h2
            push_cast
            omega
        · intro m h1 h2
          by_cases hm1 : m = 1
          · subst hm1
            push_cast
            exact hbreak
          · have := hfirst (m - 1) (by omega) (by omega)
            rw [hbi, hlen] at this
            intro hcontra
            apply this
            have : ((m - 1 : Nat) : Int) = (m : Int) - 1 := by omega
            rw [this]
            omega

/-- A buffered read in Streaming mode, with in-range indices and enough fuel:
it returns the `n` oldest resident bytes, where `n` is all that was resident
or the first positive count equal to `rx_len`. -/
theorem show_streaming (priv : mchp_3d_i2c_priv) (bus : Int × Mem) (fuel : Nat)
    (hmode : priv.isReadingStreamBuffer ≠ 0) (hin : IndicesInRange priv)
    (hfuel : resident priv < fuel) :
    ∃ (r : ShowResult) (n : Nat), receive_buffer_show priv bus fuel = some r ∧
      r.ret = (n : Int) ∧
      n ≤ resident priv ∧
      r.buf = (pending priv).take n ∧
      pending r.priv = (pending priv).drop n ∧
      IndicesInRange r.priv ∧
      r.calls = [] ∧
      r.priv.stream_buffer_size = priv.stream_buffer_size - (n : Int) ∧
      r.priv.rx_len = 0 ∧
      r.priv.isReadingStreamBuffer = 0 ∧
      r.written = (List.range n).map (fun (j : Nat) => (j : Int)) ∧
      (n = resident priv ∨ (0 < n ∧ (n : Int) = priv.rx_len)) ∧
      (∀ m : Nat, 0 < m → m < n → (m : Int) ≠ priv.rx_len) := by
  obtain ⟨s2, n, hrun, hr, hi2, hinf, hp, _, hw, hl, hz, hm, hn, hfirst⟩ :=
    drainLoop_spec fuel
      { priv := { priv with isReadingStreamBuffer := 0 }, i := 0, byte_from_buffer := 0,
        written := [] } hin (Int.le_refl 0) hfuel
  simp only [Int.zero_add, Int.toNat_zero, Nat.zero_add, List.nil_append] at hi2 hp hw hn hfirst
  have hres : resident ({ priv with isReadingStreamBuffer := 0 } : mchp_3d_i2c_priv)
      = resident priv := rfl
  have hpen : pending ({ priv with isReadingStreamBuffer := 0 } : mchp_3d_i2c_priv)
      = pending priv := rfl
  rw [hres] at hr hn
  rw [hpen] at hp
  have hlenmap : ((List.range n).map fun j => s2.priv.rx_buf j).length = n := by simp
  have hshow : receive_buffer_show priv bus fuel = some
      { priv :=
          { s2.priv with
            stream_buffer_size := s2.priv.stream_buffer_size - s2.i
            rx_len := 0 }
        calls := []
        buf := (List.range s2.i.toNat).map s2.priv.rx_buf
        ret := s2.i
        written := s2.written } := by
    simp only [receive_buffer_show, if_pos hmode, hrun]
  refine ⟨_, n, hshow, ?_, by omega, ?_, ?_, hinf, rfl, ?_, rfl, ?_, hw, hn, hfirst⟩
  · exact hi2
  · show (List.range s2.i.toNat).map s2.priv.rx_buf = (pending priv).take n
    rw [hp, hi2, Int.toNat_ofNat, List.take_left' hlenmap]
  · show pending s2.priv = (pending priv).drop n
    rw [hp, List.drop_left' hlenmap]
  · show s2.priv.stream_buffer_size - s2.i = priv.stream_buffer_size - (n : Int)
    rw [hz, hi2]
  · show s2.priv.isReadingStreamBuffer = 0
    exact hm

/-! ## Control surface: theorems on `receive_buffer` -/

/-- C14 fails on the code at `rx_len = 0`: with one byte resident and a pending
length of 0 the Streaming-mode read returns that byte (return value 1) and
empties the ring buffer, where `min(rx_len, a)` is 0. -/
theorem streaming_zero_length_drains :
    resident (streamingPriv 0 [7]) = 1 ∧
    (receive_buffer_show (streamingPriv 0 [7]) (0, fun _ => 0) 5).map
      (fun r => (r.ret, r.buf, resident r.priv)) = some (1, [7], 0) := by
  decide

/-- C14 as amended: in Streaming mode, for every pending length `rx_len ≥ 1` and
every ring-buffer content holding `a` bytes (indices in range), a buffered read
returns exactly `min(rx_len, a)` bytes, the oldest ones in order, and removes
exactly that many bytes from the ring buffer; and from an empty ring buffer it
returns 0 bytes and removes none, for every `rx_len`. -/
theorem streaming_read_count (priv : mchp_3d_i2c_priv) (bus : Int × Mem) (fuel : Nat)
    (hmode : priv.isReadingStreamBuffer ≠ 0) (hin : IndicesInRange priv)
    (hfuel : resident priv < fuel) :
    ∃ r, receive_buffer_show priv bus fuel = some r ∧
      (r.buf.length : Int) = r.ret ∧
      r.buf = (pending priv).take r.buf.length ∧
      pending r.priv = (pending priv).drop r.buf.length ∧
      resident r.priv + r.buf.length = resident priv ∧
      (1 ≤ priv.rx_len → r.ret = min priv.rx_len (resident priv : Int)) ∧
      (resident priv = 0 → r.ret = 0) := by
  obtain ⟨r, n, hshow, hret, hle, hbuf, hpend, _, _, _, _, _, _, hn, hfirst⟩ :=
    show_streaming priv bus fuel hmode hin hfuel
  have hpl : ∀ q : mchp_3d_i2c_priv, (pending q).length = resident q := by
    intro q
    simp [pending]
  have hbl : r.buf.length = n := by
    rw [hbuf, List.length_take, hpl]
    omega
  refine ⟨r, hshow, by rw [hbl, hret], by rw [hbl, hbuf], by rw [hbl, hpend], ?_, ?_, ?_⟩
  · rw [← hpl r.priv, hpend, List.length_drop, hpl, hbl]
    omega
  · intro h1
    rw [hret]
    rcases hn with h | ⟨_, h⟩
    · have : ¬ priv.rx_len < (n : Int) := by
        intro hlt
        exact hfirst priv.rx_len.toNat (by omega) (by omega) (by omega)
      omega
    · omega
  · intro h0
    rw [hret]
    omega

/-- Witness for C14 as amended: three bytes resident, pending length 2. -/
theorem streaming_read_count_witness :
    (streamingPriv 2 [7, 8, 9]).isReadingStreamBuffer ≠ 0 ∧
    IndicesInRange (streamingPriv 2 [7, 8, 9]) ∧
    resident (streamingPriv 2 [7, 8, 9]) < 4 ∧
    ∃ r, receive_buffer_show (streamingPriv 2 [7, 8, 9]) (0, fun _ => 0) 4 = some r ∧
      (r.buf.length : Int) = r.ret ∧
      r.buf = (pending (streamingPriv 2 [7, 8, 9])).take r.buf.length ∧
      pending r.priv = (pending (streamingPriv 2 [7, 8, 9])).drop r.buf.length ∧
      resident r.priv + r.buf.length = resident (streamingPriv 2 [7, 8, 9]) ∧
      (1 ≤ (streamingPriv 2 [7, 8, 9]).rx_len →
        r.ret = min (streamingPriv 2 [7, 8, 9]).rx_len
          (resident (streamingPriv 2 [7, 8, 9]) : Int)) ∧
      (resident (streamingPriv 2 [7, 8, 9]) = 0 → r.ret = 0) :=
  ⟨by decide, by decide, by decide,
    streaming_read_count (streamingPriv 2 [7, 8, 9]) (0, fun _ => 0) 4 (by decide) (by decide)
      (by decide)⟩

/-- C15: in Streaming mode (with in-range ring indices) a buffered read makes
no call into the I2C core, returns the oldest resident bytes in FIFO order and
removes them from the ring buffer, decreases `stream_buffer_size` by exactly
the number of bytes it returns, sets `rx_len` to 0 and sets the mode back to
Direct, so that the next buffered read issues exactly one `i2c_master_recv`.
The number of bytes returned is fixed by the state: `min(rx_len, a)` of the `a`
resident bytes when `rx_len ≥ 1`, all `a` of them when `rx_len ≤ 0`; so a read
with bytes resident returns at least one byte. -/
theorem streaming_read (priv : mchp_3d_i2c_priv) (bus : Int × Mem) (fuel : Nat)
    (hmode : priv.isReadingStreamBuffer ≠ 0) (hin : IndicesInRange priv)
    (hfuel : resident priv < fuel) :
    ∃ r, receive_buffer_show priv bus fuel = some r ∧
      r.calls = [] ∧
      0 ≤ r.ret ∧
      (r.buf.length : Int) = r.ret ∧
      r.buf = (pending priv).take r.ret.toNat ∧
      pending r.priv = (pending priv).drop r.ret.toNat ∧
      r.priv.stream_buffer_size = priv.stream_buffer_size - r.ret ∧
      r.priv.rx_len = 0 ∧
      r.priv.isReadingStreamBuffer = 0 ∧
      (∀ (bus2 : Int × Mem) (fuel2 : Nat),
        ∃ r2, receive_buffer_show r.priv bus2 fuel2 = some r2 ∧
          r2.calls = [I2cCall.i2c_master_recv 0]) ∧
      (1 ≤ priv.rx_len → r.ret = min priv.rx_len (resident priv : Int)) ∧
      (priv.rx_len ≤ 0 → r.ret = (resident priv : Int)) ∧
      (resident r.priv : Int) + r.ret = (resident priv : Int) := by
  obtain ⟨r, n, hshow, hret, hle, hbuf, hpend, _, hcalls, hsz, hlen, hm, _, hn, hfirst⟩ :=
    show_streaming priv bus fuel hmode hin hfuel
  have hpl : (pending priv).length = resident priv := by simp [pending]
  have hplr : (pending r.priv).length = resident r.priv := by simp [pending]
  have hcnt1 : 1 ≤ priv.rx_len → r.ret = min priv.rx_len (resident priv : Int) := by
    intro h1
    rw [hret]
    rcases hn with h | ⟨_, h⟩
    · have : ¬ priv.rx_len < (n : Int) := by
        intro hlt
        exact hfirst priv.rx_len.toNat (by omega) (by omega) (by omega)
      omega
    · omega
  have hcnt0 : priv.rx_len ≤ 0 → r.ret = (resident priv : Int) := by
    intro h0
    rw [hret]
    rcases hn with h | ⟨_, h⟩
    · omega
    · omega
  have hrem : (resident r.priv : Int) + r.ret = (resident priv : Int) := by
    rw [← hplr, hpend, List.length_drop, hpl, hret]
    omega
  refine ⟨r, hshow, hcalls, by omega, ?_, ?_, ?_, ?_, hlen, hm, ?_, hcnt1, hcnt0, hrem⟩
  · rw [hbuf, hret, List.length_take, hpl]
    omega
  · rw [hbuf, hret, Int.toNat_ofNat]
  · rw [hpend, hret, Int.toNat_ofNat]
  · rw [hsz, hret]
  · intro bus2 fuel2
    have hnot : ¬ r.priv.isReadingStreamBuffer ≠ 0 := by simp [hm]
    have hstep : ∃ r2, receive_buffer_show r.priv bus2 fuel2 = some r2 ∧
        r2.calls = [I2cCall.i2c_master_recv r.priv.rx_len] := by
      unfold receive_buffer_show
      rw [if_neg hnot]
      by_cases hneg : bus2.1 < 0
      · rw [if_pos hneg]
        exact ⟨_, rfl, rfl⟩
      · rw [if_neg hneg]
        exact ⟨_, rfl, rfl⟩
    rw [hlen] at hstep
    exact hstep

/-- Witness for C15: three bytes resident, pending length 2. -/
theorem streaming_read_witness :
    (streamingPriv 2 [7, 8, 9]).isReadingStreamBuffer ≠ 0 ∧
    IndicesInRange (streamingPriv 2 [7, 8, 9]) ∧
    resident (streamingPriv 2 [7, 8, 9]) < 10 ∧
    ∃ r, receive_buffer_show (streamingPriv 2 [7, 8, 9]) (0, fun _ => 0) 10 = some r ∧
      r.calls = [] ∧
      r.buf = (pending (streamingPriv 2 [7, 8, 9])).take r.ret.toNat ∧
      r.priv.stream_buffer_size = (streamingPriv 2 [7, 8, 9]).stream_buffer_size - r.ret ∧
      r.priv.rx_len = 0 ∧
      r.priv.isReadingStreamBuffer = 0 ∧
      r.ret = 2 := by
  obtain ⟨r, h1, h2, _, _, h5, _, h7, h8, h9, _, h11, _, _⟩ :=
    streaming_read (streamingPriv 2 [7, 8, 9]) (0, fun _ => 0) 10 (by decide) (by decide)
      (by decide)
  exact ⟨by decide, by decide, by decide, r, h1, h2, h5, h7, h8, h9, h11 (by decide)⟩

/-- C17: for every ring-buffer state reached from the empty state and every
value of `rx_len` (0 and negative values included), the Streaming-mode drain
loop ends (2000 evaluations of its condition always suffice) after copying at
most 1999 bytes: every index it writes in `rx_buf` is in `0 .. 1998`, hence
within the 2000 slots, and the value returned is between 0 and 1999. -/
theorem streaming_drain_bounded (ops : List RingOp) (priv0 : mchp_3d_i2c_priv)
    (rx_len mode : Int) (bus : Int × Mem) (fuel : Nat)
    (hn : priv0.circularBuffer.newestIndex = 0) (ho : priv0.circularBuffer.oldestIndex = 0)
    (hmode : mode ≠ 0) (hfuel : 2000 ≤ fuel) :
    ∃ r,
      receive_buffer_show
        { (runOps ops priv0).final with rx_len := rx_len, isReadingStreamBuffer := mode }
        bus fuel = some r ∧
      0 ≤ r.ret ∧ r.ret ≤ 1999 ∧
      (r.written.length : Int) = r.ret ∧
      (∀ k ∈ r.written, 0 ≤ k ∧ k < 1999) ∧
      (r.buf.length : Int) = r.ret := by
  obtain ⟨hin0, _, _⟩ := resident_of_zero priv0 hn ho
  obtain ⟨hin, _⟩ := runOps_resident ops priv0 hin0
  have hin2 : IndicesInRange
      ({ (runOps ops priv0).final with rx_len := rx_len, isReadingStreamBuffer := mode } :
        mchp_3d_i2c_priv) := hin
  have hres : resident
      ({ (runOps ops priv0).final with rx_len := rx_len, isReadingStreamBuffer := mode } :
        mchp_3d_i2c_priv) < 2000 := by
    simp only [resident, BUFFER_SIZE]
    omega
  obtain ⟨r, n, hshow, hret, hle, hbuf, _, _, _, _, _, _, hw, _, _⟩ :=
    show_streaming _ bus fuel hmode hin2 (by omega)
  have hpl : (pending
      ({ (runOps ops priv0).final with rx_len := rx_len, isReadingStreamBuffer := mode } :
        mchp_3d_i2c_priv)).length = resident
      ({ (runOps ops priv0).final with rx_len := rx_len, isReadingStreamBuffer := mode } :
        mchp_3d_i2c_priv) := by simp [pending]
  refine ⟨r, hshow, by omega, by omega, ?_, ?_, ?_⟩
  · rw [hw, hret]; simp
  · intro k hk
    rw [hw] at hk
    simp only [List.mem_map, List.mem_range] at hk
    obtain ⟨j, hj, rfl⟩ := hk
    omega
  · rw [hbuf, hret, List.length_take, hpl]
    omega

/-- Witness for C17: the empty sample record after three writes, `rx_len = -1`. -/
theorem streaming_drain_bounded_witness :
    emptyPriv.circularBuffer.newestIndex = 0 ∧ emptyPriv.circularBuffer.oldestIndex = 0 ∧
    (1 : Int) ≠ 0 ∧ 2000 ≤ 2000 ∧
    ∃ r,
      receive_buffer_show
        { (runOps [RingOp.write 7, RingOp.write 8, RingOp.write 9] emptyPriv).final with
          rx_len := -1, isReadingStreamBuffer := 1 }
        (0, fun _ => 0) 2000 = some r ∧
      0 ≤ r.ret ∧ r.ret ≤ 1999 ∧
      (r.written.length : Int) = r.ret ∧
      (∀ k ∈ r.written, 0 ≤ k ∧ k < 1999) ∧
      (r.buf.length : Int) = r.ret :=
  ⟨rfl, rfl, by decide, Nat.le_refl 2000,
    streaming_drain_bounded [RingOp.write 7, RingOp.write 8, RingOp.write 9] emptyPriv (-1) 1
      (0, fun _ => 0) 2000 rfl rfl (by decide) (Nat.le_refl 2000)⟩

end Mchp3d
